import Mathlib

/-!
The terminfo driver of libtermkey: a shallow embedding of `src/driver-ti.c`.

* C strings (`const char *`) and the input buffer (`unsigned char *`) are lists of
  byte values (`Nat`).  The end of a list that stands for a C string is its NUL
  terminator; every string function below also stops at a NUL byte inside the list,
  as the C function would.
* Whether plain `char` is a signed type is implementation-defined; it is the
  parameter `char_signed` of everything that compares a `char` with an `int`.
* `tk->method.eat_bytes` and `tk->method.getkey_simple` are function pointers into
  the rest of the library; they are the parameter `M`.  Every call through them is
  recorded in the `calls` field of what `getkey` returns.
* The terminfo database that `new_driver` walks is the list of its string
  capabilities, each the pair of the long name `strfnames[i]` and of what
  `tigetstr(strnames[i])` returns.
* The headers `termkey.h` and `termkey-internal.h` are not part of the sources:
  the enumerations are inductive types with the enumerators this file uses, and the
  numeric values of the `TERMKEY_SYM_*` and `TERMKEY_KEYMOD_SHIFT` enumerators are
  the parameter `K`.
-/

namespace TermkeyTi

/-! ## Types -/

/-- The `termkey_result` codes this driver returns. -/
inductive termkey_result
  | TERMKEY_RES_NONE
  | TERMKEY_RES_KEY
  | TERMKEY_RES_EOF
  | TERMKEY_RES_AGAIN
  deriving DecidableEq, Repr

/-- The `termkey_type` enumeration. -/
inductive termkey_type
  | TERMKEY_TYPE_UNICODE
  | TERMKEY_TYPE_FUNCTION
  | TERMKEY_TYPE_KEYSYM
  deriving DecidableEq, Repr

/-- The `struct keyinfo` of `termkey-internal.h`: `sym` is a `termkey_keysym`
(an `int`-valued enumeration), the modifiers are bit masks held in an `int`. -/
structure keyinfo where
  type : termkey_type
  sym : Int
  modifier_mask : Nat
  modifier_set : Nat
  deriving DecidableEq, Repr

/-- The fields of `termkey_key` that the driver writes: `type`, `code.sym`
and `modifiers`. -/
structure termkey_key where
  type : termkey_type
  code_sym : Int
  modifiers : Nat
  deriving DecidableEq, Repr

/-- The `struct ti_keyinfo`: a C string, its cached `strlen`, and the key. -/
structure ti_keyinfo where
  seq : List Nat
  seqlen : Nat
  key : keyinfo
  deriving DecidableEq, Repr

/-- The `termkey_ti` driver state.  `seqs` is the allocated array, one list element
per slot (`alloced_seqs` of them); only the first `nseqs` slots have been written. -/
structure termkey_ti where
  nseqs : Nat
  alloced_seqs : Nat
  seqs : List ti_keyinfo
  deriving DecidableEq, Repr

/-- The fields of `termkey_t` that the driver reads: the byte buffer with the start
and the count of its valid bytes, the closed flag, and `driver_info`. -/
structure termkey_t where
  buffer : List Nat
  buffstart : Nat
  buffcount : Nat
  is_closed : Bool
  driver_info : termkey_ti
  deriving DecidableEq, Repr

/-- The two function pointers of `tk->method` that `getkey` calls.  `eat_bytes`
updates `*tk`; `getkey_simple` returns a result and updates `*tk` and `*key`. -/
structure Methods where
  eat_bytes : termkey_t → Nat → termkey_t
  getkey_simple : termkey_t → termkey_key → termkey_result × termkey_t × termkey_key

/-- A call through `tk->method`. -/
inductive Call
  | eat_bytes (n : Nat)
  | getkey_simple
  deriving DecidableEq, Repr

/-- What one run of `getkey` leaves behind: the returned code, `*tk`, `*key`, and
the calls made through `tk->method`, in order. -/
structure Outcome where
  result : termkey_result
  tk : termkey_t
  key : termkey_key
  calls : List Call
  deriving DecidableEq, Repr

/-! ## C library functions -/

/-- The value of a plain `char` object that holds the byte `b`, after integer
promotion: `b - 256` for a byte of 128 or more where plain `char` is signed. -/
def char_value (char_signed : Bool) (b : Nat) : Int :=
  if char_signed = true ∧ 128 ≤ b then (b : Int) - 256 else (b : Int)

/-- The C `strlen`: the number of bytes before the first NUL. -/
def strlen : List Nat → Nat
  | [] => 0
  | c :: s => if c = 0 then 0 else strlen s + 1

/-- The C `strncmp`: compares at most `n` bytes as `unsigned char`, stopping after a
NUL; the result is the difference of the first two bytes that differ. -/
def strncmp : List Nat → List Nat → Nat → Int
  | _, _, 0 => 0
  | s1, s2, n + 1 =>
    if s1.headD 0 ≠ s2.headD 0 then (s1.headD 0 : Int) - (s2.headD 0 : Int)
    else if s1.headD 0 = 0 then 0
    else strncmp s1.tail s2.tail n

/-! ## `getkey` -/

/-- The macro `CHARAT(i)`: `tk->buffer[tk->buffstart + (i)]`. -/
def CHARAT (tk : termkey_t) (i : Nat) : Nat :=
  tk.buffer.getD (tk.buffstart + i) 0

/-- The `for` loop of `getkey` over the entries still to visit: `some o` when the
body returns (with `TERMKEY_RES_KEY` or `TERMKEY_RES_AGAIN`), `none` when the loop
runs to its end. -/
def getkey_loop (char_signed : Bool) (M : Methods) (tk : termkey_t) (key : termkey_key)
    (force : Int) (b0 : Nat) : List ti_keyinfo → Option Outcome
  | [] => none
  | s :: rest =>
    if char_value char_signed (s.seq.headD 0) ≠ (b0 : Int) then
      getkey_loop char_signed M tk key force b0 rest
    else if tk.buffcount ≥ s.seqlen then
      if strncmp s.seq (tk.buffer.drop tk.buffstart) s.seqlen = 0 then
        some { result := termkey_result.TERMKEY_RES_KEY
               tk := M.eat_bytes tk s.seqlen
               key := { type := s.key.type, code_sym := s.key.sym,
                        modifiers := s.key.modifier_set }
               calls := [Call.eat_bytes s.seqlen] }
      else getkey_loop char_signed M tk key force b0 rest
    else if force = 0 then
      if strncmp s.seq (tk.buffer.drop tk.buffstart) tk.buffcount = 0 then
        some { result := termkey_result.TERMKEY_RES_AGAIN, tk := tk, key := key, calls := [] }
      else getkey_loop char_signed M tk key force b0 rest
    else getkey_loop char_signed M tk key force b0 rest

/-- The function `getkey`. -/
def getkey (char_signed : Bool) (M : Methods) (tk : termkey_t) (key : termkey_key)
    (force : Int) : Outcome :=
  if tk.buffcount = 0 then
    { result := if tk.is_closed then termkey_result.TERMKEY_RES_EOF
                else termkey_result.TERMKEY_RES_NONE
      tk := tk, key := key, calls := [] }
  else
    match getkey_loop char_signed M tk key force (CHARAT tk 0)
        (tk.driver_info.seqs.take tk.driver_info.nseqs) with
    | some o => o
    | none =>
      { result := (M.getkey_simple tk key).1
        tk := (M.getkey_simple tk key).2.1
        key := (M.getkey_simple tk key).2.2
        calls := [Call.getkey_simple] }

/-! ## `register_seq` and the allocation in `new_driver` -/

/-- The content of an array slot that has been allocated and not yet written.  In C
it is indeterminate; no function of the driver reads such a slot. -/
def indeterminate : ti_keyinfo :=
  { seq := [], seqlen := 0,
    key := { type := termkey_type.TERMKEY_TYPE_UNICODE, sym := 0,
             modifier_mask := 0, modifier_set := 0 } }

/-- The C `realloc` of the slot array to `n` slots (taken to succeed, as the source
does): the old slots keep their content, the new ones are not yet written. -/
def realloc (seqs : List ti_keyinfo) (n : Nat) : List ti_keyinfo :=
  seqs.take n ++ List.replicate (n - seqs.length) indeterminate

/-- The function `register_seq`. -/
def register_seq (ti : termkey_ti) (seq : List Nat) (type : termkey_type) (sym : Int)
    (modmask modset : Nat) : termkey_ti :=
  let ti1 : termkey_ti :=
    if ti.nseqs = ti.alloced_seqs then
      { ti with alloced_seqs := ti.alloced_seqs * 2
                seqs := realloc ti.seqs (ti.alloced_seqs * 2) }
    else ti
  { ti1 with
    nseqs := ti1.nseqs + 1
    seqs := ti1.seqs.set ti1.nseqs
      { seq := seq, seqlen := strlen seq,
        key := { type := type, sym := sym, modifier_mask := modmask,
                 modifier_set := modset } } }

/-- The driver state `new_driver` sets up before its loop over the capabilities:
32 allocated slots, none registered. -/
def new_driver_alloc : termkey_ti :=
  { nseqs := 0, alloced_seqs := 32, seqs := List.replicate 32 indeterminate }

/-! ## `funcname2keysym` -/

/-- The numeric values of the enumerators of `termkey.h` that `driver-ti.c` names. -/
structure Consts where
  TERMKEY_KEYMOD_SHIFT : Nat
  TERMKEY_SYM_BACKSPACE : Int
  TERMKEY_SYM_BEGIN : Int
  TERMKEY_SYM_TAB : Int
  TERMKEY_SYM_DELETE : Int
  TERMKEY_SYM_DOWN : Int
  TERMKEY_SYM_END : Int
  TERMKEY_SYM_FIND : Int
  TERMKEY_SYM_HOME : Int
  TERMKEY_SYM_INSERT : Int
  TERMKEY_SYM_LEFT : Int
  TERMKEY_SYM_PAGEDOWN : Int
  TERMKEY_SYM_PAGEUP : Int
  TERMKEY_SYM_RIGHT : Int
  TERMKEY_SYM_SELECT : Int
  TERMKEY_SYM_UP : Int

/-- The bytes of an ASCII string literal (without the terminating NUL). -/
def bytes (s : String) : List Nat :=
  s.toList.map Char.toNat

/-- The C `strcmp`: compares bytes as `unsigned char` up to and including the first
NUL; the result is the difference of the first two bytes that differ. -/
def strcmp : List Nat → List Nat → Int
  | [], s2 => (0 : Int) - (s2.headD 0 : Int)
  | c1 :: s1, s2 =>
    if c1 ≠ s2.headD 0 then (c1 : Int) - (s2.headD 0 : Int)
    else if c1 = 0 then 0
    else strcmp s1 s2.tail

/-- The C `isdigit` in the "C" locale. -/
def isdigit (c : Nat) : Bool :=
  decide (48 ≤ c ∧ c ≤ 57)

/-- The C `isspace` in the "C" locale: space, and `\t \n \v \f \r`. -/
def isspace (c : Nat) : Bool :=
  decide (c = 32 ∨ (9 ≤ c ∧ c ≤ 13))

/-- The digit loop of `atoi`: the decimal digits at the start of the string,
accumulated onto `acc`. -/
def atoi_digits : List Nat → Nat → Nat
  | [], acc => acc
  | c :: s, acc => if isdigit c = true then atoi_digits s (acc * 10 + (c - 48)) else acc

/-- Conversion of an integer to the 32-bit `int`. -/
def to_int (z : Int) : Int :=
  (z + 2 ^ 31) % 2 ^ 32 - 2 ^ 31

/-- The C `atoi`: white space, an optional sign (`-` is 45, `+` is 43), decimal
digits.  A value that does not fit `int` is undefined in C; here it wraps to 32 bits. -/
def atoi (s : List Nat) : Int :=
  if (s.dropWhile isspace).headD 0 = 45 then
    to_int (-(atoi_digits (s.dropWhile isspace).tail 0 : Int))
  else if (s.dropWhile isspace).headD 0 = 43 then
    to_int (atoi_digits (s.dropWhile isspace).tail 0 : Int)
  else to_int (atoi_digits (s.dropWhile isspace) 0 : Int)

/-- One row of the table `funcs`. -/
structure func_entry where
  funcname : List Nat
  type : termkey_type
  sym : Int
  mods : Nat

/-- The table `funcs`, without its terminating `{ NULL }` row. -/
def funcs (K : Consts) : List func_entry :=
  [ ⟨bytes "backspace", termkey_type.TERMKEY_TYPE_KEYSYM, K.TERMKEY_SYM_BACKSPACE, 0⟩,
    ⟨bytes "begin",     termkey_type.TERMKEY_TYPE_KEYSYM, K.TERMKEY_SYM_BEGIN,     0⟩,
    ⟨bytes "btab",      termkey_type.TERMKEY_TYPE_KEYSYM, K.TERMKEY_SYM_TAB,       K.TERMKEY_KEYMOD_SHIFT⟩,
    ⟨bytes "dc",        termkey_type.TERMKEY_TYPE_KEYSYM, K.TERMKEY_SYM_DELETE,    0⟩,
    ⟨bytes "down",      termkey_type.TERMKEY_TYPE_KEYSYM, K.TERMKEY_SYM_DOWN,      0⟩,
    ⟨bytes "end",       termkey_type.TERMKEY_TYPE_KEYSYM, K.TERMKEY_SYM_END,       0⟩,
    ⟨bytes "find",      termkey_type.TERMKEY_TYPE_KEYSYM, K.TERMKEY_SYM_FIND,      0⟩,
    ⟨bytes "home",      termkey_type.TERMKEY_TYPE_KEYSYM, K.TERMKEY_SYM_HOME,      0⟩,
    ⟨bytes "ic",        termkey_type.TERMKEY_TYPE_KEYSYM, K.TERMKEY_SYM_INSERT,    0⟩,
    ⟨bytes "left",      termkey_type.TERMKEY_TYPE_KEYSYM, K.TERMKEY_SYM_LEFT,      0⟩,
    ⟨bytes "next",      termkey_type.TERMKEY_TYPE_KEYSYM, K.TERMKEY_SYM_PAGEDOWN,  0⟩,
    ⟨bytes "npage",     termkey_type.TERMKEY_TYPE_KEYSYM, K.TERMKEY_SYM_PAGEDOWN,  0⟩,
    ⟨bytes "ppage",     termkey_type.TERMKEY_TYPE_KEYSYM, K.TERMKEY_SYM_PAGEUP,    0⟩,
    ⟨bytes "previous",  termkey_type.TERMKEY_TYPE_KEYSYM, K.TERMKEY_SYM_PAGEUP,    0⟩,
    ⟨bytes "right",     termkey_type.TERMKEY_TYPE_KEYSYM, K.TERMKEY_SYM_RIGHT,     0⟩,
    ⟨bytes "select",    termkey_type.TERMKEY_TYPE_KEYSYM, K.TERMKEY_SYM_SELECT,    0⟩,
    ⟨bytes "up",        termkey_type.TERMKEY_TYPE_KEYSYM, K.TERMKEY_SYM_UP,        0⟩ ]

/-- The function `funcname2keysym`.  The four cells behind `typep`, `symp`,
`modmaskp` and `modsetp` are the fields of a `keyinfo`; the result is the returned
`int` with the cells as the call leaves them.  (The diagnostic written to standard
output on failure is not part of the model.) -/
def funcname2keysym (K : Consts) (funcname : List Nat) (o : keyinfo) : Int × keyinfo :=
  match (funcs K).find? (fun e => decide (strcmp funcname e.funcname = 0)) with
  | some e =>
    (1, { type := e.type, sym := e.sym, modifier_mask := e.mods, modifier_set := e.mods })
  | none =>
    if funcname.headD 0 = 102 ∧ isdigit (funcname.tail.headD 0) = true then
      (1, { o with type := termkey_type.TERMKEY_TYPE_FUNCTION, sym := atoi funcname.tail })
    else
      match funcname with
      | [] => (0, o)
      | c :: rest =>
        if c = 115 then
          if (funcname2keysym K rest o).1 ≠ 0 then
            (1, { (funcname2keysym K rest o).2 with
                  modifier_mask :=
                    (funcname2keysym K rest o).2.modifier_mask ||| K.TERMKEY_KEYMOD_SHIFT
                  modifier_set :=
                    (funcname2keysym K rest o).2.modifier_set ||| K.TERMKEY_KEYMOD_SHIFT })
          else (0, (funcname2keysym K rest o).2)
        else (0, o)

/-! ## `new_driver` -/

/-- What `tigetstr` returns: `NULL` for a capability the terminal does not have,
`(char *)-1` for a name that is not a string capability, or the capability's string. -/
inductive tigetstr_result
  | null
  | minus_one
  | string (value : List Nat)
  deriving DecidableEq, Repr

/-- The `for` loop of `new_driver` over the capabilities still to visit.  A capability
is the pair of its long name `strfnames[i]` and of what `tigetstr(strnames[i])`
returns.  `t0` and `s0` are the indeterminate values of the locals `type` and `sym`,
which the loop body declares without initialising them. -/
def new_driver_loop (K : Consts) (t0 : termkey_type) (s0 : Int) :
    List (List Nat × tigetstr_result) → termkey_ti → termkey_ti
  | [], ti => ti
  | (name, value) :: rest, ti =>
    if strncmp name (bytes "key_") 4 ≠ 0 then new_driver_loop K t0 s0 rest ti
    else
      match value with
      | tigetstr_result.null => new_driver_loop K t0 s0 rest ti
      | tigetstr_result.minus_one => new_driver_loop K t0 s0 rest ti
      | tigetstr_result.string v =>
        if (funcname2keysym K (name.drop 4)
              { type := t0, sym := s0, modifier_mask := 0, modifier_set := 0 }).1 = 0 then
          new_driver_loop K t0 s0 rest ti
        else
          new_driver_loop K t0 s0 rest
            (register_seq ti v
              (funcname2keysym K (name.drop 4)
                { type := t0, sym := s0, modifier_mask := 0, modifier_set := 0 }).2.type
              (funcname2keysym K (name.drop 4)
                { type := t0, sym := s0, modifier_mask := 0, modifier_set := 0 }).2.sym
              (funcname2keysym K (name.drop 4)
                { type := t0, sym := s0, modifier_mask := 0, modifier_set := 0 }).2.modifier_mask
              (funcname2keysym K (name.drop 4)
                { type := t0, sym := s0, modifier_mask := 0, modifier_set := 0 }).2.modifier_set)

/-- The function `new_driver`, as the driver state it returns, for the capability
database `db` that `setupterm` has loaded (the capabilities in the order of
`strfnames`). -/
def new_driver (K : Consts) (t0 : termkey_type) (s0 : Int)
    (db : List (List Nat × tigetstr_result)) : termkey_ti :=
  new_driver_loop K t0 s0 db new_driver_alloc

/-! ## Vocabulary of the statements -/

/-- The bytes of a C string: those before its first NUL. -/
def cstring (s : List Nat) : List Nat :=
  s.takeWhile (fun c => decide (c ≠ 0))

/-- The registered entries, in registration order: the first `nseqs` slots. -/
def registry (ti : termkey_ti) : List ti_keyinfo :=
  ti.seqs.take ti.nseqs

/-- The buffered bytes: `buffcount` bytes from `buffer + buffstart`. -/
def buffered (tk : termkey_t) : List Nat :=
  (tk.buffer.drop tk.buffstart).take tk.buffcount

/-- Every registered entry caches the length of its own sequence
(`register_seq` stores `strlen(seq)`). -/
def registry_ok (ti : termkey_ti) : Prop :=
  ∀ s ∈ registry ti, s.seqlen = strlen s.seq

/-- The slot array has `alloced_seqs` slots, at least one, and no more than that are
in use (true of the state `new_driver` allocates, and kept by `register_seq`). -/
def capacity_ok (ti : termkey_ti) : Prop :=
  ti.nseqs ≤ ti.alloced_seqs ∧ ti.seqs.length = ti.alloced_seqs ∧ 0 < ti.alloced_seqs

/-- The valid bytes lie inside the buffer. -/
def buffer_ok (tk : termkey_t) : Prop :=
  tk.buffstart + tk.buffcount ≤ tk.buffer.length

/-- The first-byte test of the scan, `s->seq[0] == b0`: the plain `char` at the start
of the sequence compared with the first buffered byte. -/
def first_byte_eq (char_signed : Bool) (s : ti_keyinfo) (B : List Nat) : Prop :=
  char_value char_signed (s.seq.headD 0) = (B.headD 0 : Int)

/-- Spec 4.4, step 2a: the entry passes the first-byte test, the buffer holds at least
as many bytes as the sequence, and the sequence equals the buffer's first bytes. -/
def full_match (char_signed : Bool) (s : ti_keyinfo) (B : List Nat) : Prop :=
  first_byte_eq char_signed s B ∧ strlen s.seq ≤ B.length ∧
    cstring s.seq = B.take (strlen s.seq)

/-- Spec 4.4, step 2b: the entry passes the first-byte test, the buffer is shorter
than the sequence, `force` is off, and the buffer equals the sequence's first bytes. -/
def partial_match (char_signed : Bool) (force : Int) (s : ti_keyinfo) (B : List Nat) : Prop :=
  first_byte_eq char_signed s B ∧ B.length < strlen s.seq ∧ force = 0 ∧
    B = (cstring s.seq).take B.length

instance (char_signed : Bool) (s : ti_keyinfo) (B : List Nat) :
    Decidable (first_byte_eq char_signed s B) := by
  unfold first_byte_eq; infer_instance

instance (char_signed : Bool) (s : ti_keyinfo) (B : List Nat) :
    Decidable (full_match char_signed s B) := by
  unfold full_match; infer_instance

instance (char_signed : Bool) (force : Int) (s : ti_keyinfo) (B : List Nat) :
    Decidable (partial_match char_signed force s B) := by
  unfold partial_match; infer_instance

/-- Spec 4.4, step 2a, with the first-byte test read as equality of bytes: the first
byte of the sequence equals the first buffered byte, the buffer holds at least as many
bytes as the sequence, and the sequence equals the buffer's first bytes. -/
def byte_full_match (s : ti_keyinfo) (B : List Nat) : Prop :=
  s.seq.headD 0 = B.headD 0 ∧ strlen s.seq ≤ B.length ∧
    cstring s.seq = B.take (strlen s.seq)

/-- Spec 4.4, step 2b, with the first-byte test read as equality of bytes: the first
byte of the sequence equals the first buffered byte, the buffer is shorter than the
sequence, `force` is off, and the buffer equals the sequence's first bytes. -/
def byte_partial_match (force : Int) (s : ti_keyinfo) (B : List Nat) : Prop :=
  s.seq.headD 0 = B.headD 0 ∧ B.length < strlen s.seq ∧ force = 0 ∧
    B = (cstring s.seq).take B.length

instance (s : ti_keyinfo) (B : List Nat) : Decidable (byte_full_match s B) := by
  unfold byte_full_match; infer_instance

instance (force : Int) (s : ti_keyinfo) (B : List Nat) :
    Decidable (byte_partial_match force s B) := by
  unfold byte_partial_match; infer_instance

/-- The outcome `Matched`: `TERMKEY_RES_KEY`, the key of entry `s` written to `*key`,
and one call `eat_bytes(tk, n)`. -/
def matched (M : Methods) (tk : termkey_t) (s : ti_keyinfo) (n : Nat) : Outcome :=
  { result := termkey_result.TERMKEY_RES_KEY
    tk := M.eat_bytes tk n
    key := { type := s.key.type, code_sym := s.key.sym, modifiers := s.key.modifier_set }
    calls := [Call.eat_bytes n] }

/-- The outcome `NeedMoreInput`: `TERMKEY_RES_AGAIN`, nothing written, nothing called. -/
def need_more_input (tk : termkey_t) (key : termkey_key) : Outcome :=
  { result := termkey_result.TERMKEY_RES_AGAIN, tk := tk, key := key, calls := [] }

/-- The outcome `NoMatch`: whatever the one call of `getkey_simple(tk, key)` gives. -/
def no_match (M : Methods) (tk : termkey_t) (key : termkey_key) : Outcome :=
  { result := (M.getkey_simple tk key).1
    tk := (M.getkey_simple tk key).2.1
    key := (M.getkey_simple tk key).2.2
    calls := [Call.getkey_simple] }

/-- The names in the first column of the table `funcs`. -/
def func_names : List (List Nat) :=
  [ bytes "backspace", bytes "begin", bytes "btab", bytes "dc", bytes "down", bytes "end",
    bytes "find", bytes "home", bytes "ic", bytes "left", bytes "next", bytes "npage",
    bytes "ppage", bytes "previous", bytes "right", bytes "select", bytes "up" ]

/-- The number that a string of decimal digits writes (most significant digit first). -/
def decimal_value (ds : List Nat) : Nat :=
  Nat.ofDigits 10 ((ds.map (fun d => d - 48)).reverse)

/-- The modifier bits `set` are among the bits `mask`. -/
def modifier_subset (set mask : Nat) : Prop :=
  set &&& mask = set

instance (set mask : Nat) : Decidable (modifier_subset set mask) := by
  unfold modifier_subset; infer_instance

/-- Spec 4.1: the registry entry that a capability gives rise to, if any: its long name
starts with `key_`, its value is defined, and the name without `key_` is mapped; the
entry pairs the value with the key that `funcname2keysym` gives for that name. -/
def loaded_entry (K : Consts) (t0 : termkey_type) (s0 : Int)
    (c : List Nat × tigetstr_result) : Option ti_keyinfo :=
  match c.2 with
  | tigetstr_result.string v =>
    if bytes "key_" <+: c.1 ∧
        (funcname2keysym K (c.1.drop 4)
          { type := t0, sym := s0, modifier_mask := 0, modifier_set := 0 }).1 ≠ 0 then
      some { seq := v, seqlen := strlen v,
             key := (funcname2keysym K (c.1.drop 4)
               { type := t0, sym := s0, modifier_mask := 0, modifier_set := 0 }).2 }
    else none
  | _ => none

/-- The value of a capability is not the empty string: it is undefined, or a string
with at least one byte. -/
def not_empty_string (v : tigetstr_result) : Prop :=
  match v with
  | tigetstr_result.string value => cstring value ≠ []
  | _ => True

instance (v : tigetstr_result) : Decidable (not_empty_string v) := by
  unfold not_empty_string; split <;> infer_instance

/-! ## Sample inputs -/

/-- Modelled from the spec: `eat_bytes` lives in the library's main file, which is not
among the sources; by the spec's `consumeBytes(n)` it discards the first `n` buffered
bytes. -/
def eat_bytes_model (tk : termkey_t) (n : Nat) : termkey_t :=
  { tk with buffstart := tk.buffstart + n, buffcount := tk.buffcount - n }

/-- Modelled from the spec: `getkey_simple` lives in the library's main file, which is
not among the sources; by the spec's `decodeSimpleKey()` it decodes the buffered bytes
as a plain character, here the first byte taken as a Unicode key. -/
def getkey_simple_model (tk : termkey_t) (key : termkey_key) :
    termkey_result × termkey_t × termkey_key :=
  (termkey_result.TERMKEY_RES_KEY, eat_bytes_model tk 1,
    { key with type := termkey_type.TERMKEY_TYPE_UNICODE, code_sym := (CHARAT tk 0 : Int),
               modifiers := 0 })

/-- The two collaborators as modelled from the spec. -/
def methods_model : Methods :=
  { eat_bytes := eat_bytes_model, getkey_simple := getkey_simple_model }

/-- Sample values for the enumerators of `termkey.h` (Shift is bit 0). -/
def sample_consts : Consts :=
  { TERMKEY_KEYMOD_SHIFT := 1
    TERMKEY_SYM_BACKSPACE := 1, TERMKEY_SYM_BEGIN := 11, TERMKEY_SYM_TAB := 2
    TERMKEY_SYM_DELETE := 14, TERMKEY_SYM_DOWN := 8, TERMKEY_SYM_END := 19
    TERMKEY_SYM_FIND := 12, TERMKEY_SYM_HOME := 18, TERMKEY_SYM_INSERT := 13
    TERMKEY_SYM_LEFT := 9, TERMKEY_SYM_PAGEDOWN := 17, TERMKEY_SYM_PAGEUP := 16
    TERMKEY_SYM_RIGHT := 10, TERMKEY_SYM_SELECT := 15, TERMKEY_SYM_UP := 7 }

/-- A key structure as a caller might pass it in. -/
def sample_key : termkey_key :=
  { type := termkey_type.TERMKEY_TYPE_UNICODE, code_sym := 0, modifiers := 0 }

/-- The four cells `type`, `sym`, `mask`, `set` as `new_driver` might hold them before
it calls `funcname2keysym`: `mask` and `set` are 0, `type` and `sym` are not yet set. -/
def sample_key_out : keyinfo :=
  { type := termkey_type.TERMKEY_TYPE_UNICODE, sym := 0, modifier_mask := 0,
    modifier_set := 0 }

/-- An open stream whose buffer holds exactly the bytes `buf`, with driver state `ti`. -/
def tk_of (ti : termkey_ti) (buf : List Nat) : termkey_t :=
  { buffer := buf, buffstart := 0, buffcount := buf.length, is_closed := false,
    driver_info := ti }

/-- The registry of spec 8.6: `"\x1bOA"` for Up, then `"\x1bOB"` for Down, registered
in that order through `register_seq`. -/
def cursor_registry (K : Consts) : termkey_ti :=
  register_seq
    (register_seq new_driver_alloc [27, 79, 65] termkey_type.TERMKEY_TYPE_KEYSYM
      K.TERMKEY_SYM_UP 0 0)
    [27, 79, 66] termkey_type.TERMKEY_TYPE_KEYSYM K.TERMKEY_SYM_DOWN 0 0

/-- A registry in which a sequence comes before its own prefix: `"\x1bOA"` for Up,
then `"\x1bO"` for End. -/
def longer_first_registry (K : Consts) : termkey_ti :=
  register_seq
    (register_seq new_driver_alloc [27, 79, 65] termkey_type.TERMKEY_TYPE_KEYSYM
      K.TERMKEY_SYM_UP 0 0)
    [27, 79] termkey_type.TERMKEY_TYPE_KEYSYM K.TERMKEY_SYM_END 0 0

/-- A registry in which a sequence comes after its own prefix: `"\x1bO"` for End, then
`"\x1bOA"` for Up. -/
def shorter_first_registry (K : Consts) : termkey_ti :=
  register_seq
    (register_seq new_driver_alloc [27, 79] termkey_type.TERMKEY_TYPE_KEYSYM
      K.TERMKEY_SYM_END 0 0)
    [27, 79, 65] termkey_type.TERMKEY_TYPE_KEYSYM K.TERMKEY_SYM_UP 0 0

/-- A registry with a one-byte sequence ahead of a longer one that starts with it:
`"\x1b"` for Begin, then `"\x1bOA"` for Up. -/
def escape_first_registry (K : Consts) : termkey_ti :=
  register_seq
    (register_seq new_driver_alloc [27] termkey_type.TERMKEY_TYPE_KEYSYM
      K.TERMKEY_SYM_BEGIN 0 0)
    [27, 79, 65] termkey_type.TERMKEY_TYPE_KEYSYM K.TERMKEY_SYM_UP 0 0

/-- A registry with one sequence that starts with the 8-bit CSI (0x9b), as a terminal
with 8-bit controls sends it: `"\x9bA"` for Up. -/
def csi8_registry (K : Consts) : termkey_ti :=
  register_seq new_driver_alloc [155, 65] termkey_type.TERMKEY_TYPE_KEYSYM
    K.TERMKEY_SYM_UP 0 0

/-- A registry of three: `"\x1b[A"` for Up, `"\x1bOA"` for Up, then `"\x1bO"` for End. -/
def three_registry (K : Consts) : termkey_ti :=
  register_seq
    (register_seq
      (register_seq new_driver_alloc [27, 91, 65] termkey_type.TERMKEY_TYPE_KEYSYM
        K.TERMKEY_SYM_UP 0 0)
      [27, 79, 65] termkey_type.TERMKEY_TYPE_KEYSYM K.TERMKEY_SYM_UP 0 0)
    [27, 79] termkey_type.TERMKEY_TYPE_KEYSYM K.TERMKEY_SYM_END 0 0

/-- A collaborator pair whose `getkey_simple` asks for more input and touches nothing,
as a decoder does on the first byte of an unfinished multi-byte character. -/
def methods_again : Methods :=
  { eat_bytes := eat_bytes_model
    getkey_simple := fun tk key => (termkey_result.TERMKEY_RES_AGAIN, tk, key) }

/-- A capability database: `key_up` is `"\x1bOA"`, `cursor_home` is `"\x1b[H"`,
`key_xyz123` is `"\x1bX"`, `key_f3` is absent, `key_sleft` is `"\x1b[1;2D"`, and
`key_f12` is `"\x1b[24~"`. -/
def sample_db : List (List Nat × tigetstr_result) :=
  [ (bytes "key_up", tigetstr_result.string [27, 79, 65]),
    (bytes "cursor_home", tigetstr_result.string [27, 91, 72]),
    (bytes "key_xyz123", tigetstr_result.string [27, 88]),
    (bytes "key_f3", tigetstr_result.null),
    (bytes "key_sleft", tigetstr_result.string [27, 91, 49, 59, 50, 68]),
    (bytes "key_f12", tigetstr_result.string [27, 91, 50, 52, 126]) ]

/-- A capability database in which `key_dc` is defined as the empty string. -/
def empty_value_db : List (List Nat × tigetstr_result) :=
  [ (bytes "key_up", tigetstr_result.string [27, 79, 65]),
    (bytes "key_dc", tigetstr_result.string []) ]

/-- A driver state whose slot array is full: one slot, holding `"\x1bOA"` for Up. -/
def full_registry (K : Consts) : termkey_ti :=
  { nseqs := 1, alloced_seqs := 1,
    seqs := [{ seq := [27, 79, 65], seqlen := 3,
               key := { type := termkey_type.TERMKEY_TYPE_KEYSYM, sym := K.TERMKEY_SYM_UP,
                        modifier_mask := 0, modifier_set := 0 } }] }

/-- A registry of two sequences that start with the 8-bit CSI (0x9b): `"\x9bA"` for Up,
then `"\x9bB"` for Down. -/
def csi8_cursor_registry (K : Consts) : termkey_ti :=
  register_seq
    (register_seq new_driver_alloc [155, 65] termkey_type.TERMKEY_TYPE_KEYSYM
      K.TERMKEY_SYM_UP 0 0)
    [155, 66] termkey_type.TERMKEY_TYPE_KEYSYM K.TERMKEY_SYM_DOWN 0 0

/-! ## Lemmas on the C library functions -/

theorem strlen_eq_length_cstring (s : List Nat) : strlen s = (cstring s).length := by
  induction s with
  | nil => rfl
  | cons c s ih =>
    by_cases hc : c = 0
    · simp [strlen, cstring, hc]
    · simp only [strlen, hc, if_false, cstring] at ih ⊢
      rw [List.takeWhile_cons_of_pos (by simpa using hc)]
      simp [ih]

theorem take_strlen (s : List Nat) : s.take (strlen s) = cstring s := by
  induction s with
  | nil => rfl
  | cons c s ih =>
    by_cases hc : c = 0
    · simp [strlen, cstring, hc]
    · simp only [strlen, hc, if_false, cstring] at ih ⊢
      rw [List.takeWhile_cons_of_pos (by simpa using hc)]
      simp [ih]

theorem strlen_le_length (s : List Nat) : strlen s ≤ s.length := by
  rw [strlen_eq_length_cstring]
  exact (List.takeWhile_sublist _).length_le

theorem cstring_starts (s : List Nat) : cstring s <+: s :=
  List.takeWhile_prefix _

theorem not_zero_mem_cstring (s : List Nat) : 0 ∉ cstring s := by
  intro h
  have := List.mem_takeWhile_imp h
  simp at this

theorem headD_cstring (s : List Nat) : (cstring s).headD 0 = s.headD 0 := by
  cases s with
  | nil => rfl
  | cons c s =>
    by_cases hc : c = 0
    · simp [cstring, hc]
    · simp only [cstring]
      rw [List.takeWhile_cons_of_pos (by simpa using hc)]
      rfl

theorem cstring_eq_nil_iff (s : List Nat) : cstring s = [] ↔ s.headD 0 = 0 := by
  cases s with
  | nil => simp [cstring]
  | cons c s =>
    by_cases hc : c = 0
    · simp [cstring, hc]
    · simp only [cstring]
      rw [List.takeWhile_cons_of_pos (by simpa using hc)]
      simp [hc]

/-- Within the length of `s`, `strncmp` answers 0 exactly when the first `n` bytes
of the two arguments are the same. -/
theorem strncmp_eq_zero_iff (n : Nat) : ∀ (s b : List Nat), n ≤ strlen s →
    (strncmp s b n = 0 ↔ s.take n = b.take n) := by
  induction n with
  | zero => intro s b _; simp [strncmp]
  | succ n ih =>
    intro s b hn
    cases s with
    | nil => simp [strlen] at hn
    | cons c s =>
      have hc : c ≠ 0 := by
        intro h; simp [strlen, h] at hn
      have hn' : n ≤ strlen s := by
        simp only [strlen, hc, if_false] at hn; omega
      cases b with
      | nil =>
        simp only [strncmp, List.headD_cons, List.headD_nil, List.take_nil]
        simp [hc]
      | cons d b =>
        simp only [strncmp, List.headD_cons, List.tail_cons, List.take_succ_cons]
        by_cases hcd : c = d
        · subst hcd
          simp only [ne_eq, not_true_eq_false, if_false, hc, List.cons.injEq, true_and]
          exact ih s b hn'
        · have : (c : Int) - (d : Int) ≠ 0 := by omega
          simp [hcd, this]

/-! ## Lemmas on the buffer -/

theorem length_buffered (tk : termkey_t) (h : buffer_ok tk) :
    (buffered tk).length = tk.buffcount := by
  unfold buffer_ok at h
  simp only [buffered, List.length_take, List.length_drop]
  omega

theorem take_buffered (tk : termkey_t) (n : Nat) (h : n ≤ tk.buffcount) :
    (tk.buffer.drop tk.buffstart).take n = (buffered tk).take n := by
  simp only [buffered, List.take_take]
  rw [Nat.min_eq_left h]

theorem CHARAT_zero (tk : termkey_t) (h : tk.buffcount ≠ 0) :
    CHARAT tk 0 = (buffered tk).headD 0 := by
  obtain ⟨n, hn⟩ := Nat.exists_eq_succ_of_ne_zero h
  simp only [CHARAT, buffered, hn, Nat.add_zero]
  rw [List.getD_eq_getElem?_getD, List.headD_eq_head?_getD, List.head?_take,
    if_neg (Nat.succ_ne_zero n), List.head?_drop]

/-! ## The loop of `getkey`, one entry at a time -/

theorem getkey_loop_cons_full (char_signed : Bool) (M : Methods) (tk : termkey_t)
    (key : termkey_key) (force : Int) (s : ti_keyinfo) (rest : List ti_keyinfo)
    (hs : s.seqlen = strlen s.seq) (hbuf : buffer_ok tk)
    (h : full_match char_signed s (buffered tk)) :
    getkey_loop char_signed M tk key force ((buffered tk).headD 0) (s :: rest)
      = some (matched M tk s (strlen s.seq)) := by
  obtain ⟨h1, h2, h3⟩ := h
  rw [length_buffered tk hbuf] at h2
  have hcmp : strncmp s.seq (tk.buffer.drop tk.buffstart) (strlen s.seq) = 0 := by
    rw [strncmp_eq_zero_iff _ _ _ (le_refl _), take_strlen, take_buffered tk _ h2]
    exact h3
  unfold first_byte_eq at h1
  rw [getkey_loop, if_neg (fun hne => hne h1), hs, if_pos h2, if_pos hcmp]
  rfl

theorem getkey_loop_cons_again (char_signed : Bool) (M : Methods) (tk : termkey_t)
    (key : termkey_key) (force : Int) (s : ti_keyinfo) (rest : List ti_keyinfo)
    (hs : s.seqlen = strlen s.seq) (hbuf : buffer_ok tk)
    (h : partial_match char_signed force s (buffered tk)) :
    getkey_loop char_signed M tk key force ((buffered tk).headD 0) (s :: rest)
      = some (need_more_input tk key) := by
  obtain ⟨h1, h2, h3, h4⟩ := h
  rw [length_buffered tk hbuf] at h2 h4
  have hcmp : strncmp s.seq (tk.buffer.drop tk.buffstart) tk.buffcount = 0 := by
    rw [strncmp_eq_zero_iff _ _ _ (le_of_lt h2), take_buffered tk _ (le_refl _)]
    have h5 : (buffered tk).take tk.buffcount = buffered tk := by
      rw [← length_buffered tk hbuf]; exact List.take_length _
    rw [h5, h4, ← take_strlen, List.take_take, Nat.min_eq_left (le_of_lt h2)]
  unfold first_byte_eq at h1
  have h2' : ¬ tk.buffcount ≥ strlen s.seq := by omega
  rw [getkey_loop, if_neg (fun hne => hne h1), hs, if_neg h2', if_pos h3, if_pos hcmp]
  rfl

theorem getkey_loop_cons_skip (char_signed : Bool) (M : Methods) (tk : termkey_t)
    (key : termkey_key) (force : Int) (s : ti_keyinfo) (rest : List ti_keyinfo)
    (hs : s.seqlen = strlen s.seq) (hbuf : buffer_ok tk)
    (hf : ¬ full_match char_signed s (buffered tk))
    (hp : ¬ partial_match char_signed force s (buffered tk)) :
    getkey_loop char_signed M tk key force ((buffered tk).headD 0) (s :: rest)
      = getkey_loop char_signed M tk key force ((buffered tk).headD 0) rest := by
  have hlen := length_buffered tk hbuf
  by_cases h1 : char_value char_signed (s.seq.headD 0) = ((buffered tk).headD 0 : Int)
  · by_cases h2 : strlen s.seq ≤ tk.buffcount
    · have hcmp : strncmp s.seq (tk.buffer.drop tk.buffstart) (strlen s.seq) ≠ 0 := by
        rw [ne_eq, strncmp_eq_zero_iff _ _ _ (le_refl _), take_strlen, take_buffered tk _ h2]
        intro h3
        exact hf ⟨h1, by omega, h3⟩
      rw [getkey_loop, if_neg (fun hne => hne h1), hs, if_pos h2, if_neg hcmp]
    · by_cases h3 : force = 0
      · have hcmp : strncmp s.seq (tk.buffer.drop tk.buffstart) tk.buffcount ≠ 0 := by
          rw [ne_eq, strncmp_eq_zero_iff _ _ _ (by omega), take_buffered tk _ (le_refl _)]
          intro h4
          apply hp
          refine ⟨h1, by omega, h3, ?_⟩
          have h5 : (buffered tk).take tk.buffcount = buffered tk := by
            rw [← hlen]; exact List.take_length _
          rw [h5] at h4
          rw [hlen, ← take_strlen, List.take_take, Nat.min_eq_left (by omega)]
          exact h4.symm
        rw [getkey_loop, if_neg (fun hne => hne h1), hs, if_neg (by omega), if_pos h3,
          if_neg hcmp]
      · rw [getkey_loop, if_neg (fun hne => hne h1), hs, if_neg (by omega), if_neg h3]
  · rw [getkey_loop, if_pos h1]

/-! ## The scan as a whole -/

/-- The loop passes over a run of entries none of which matches. -/
theorem getkey_loop_skip_to (char_signed : Bool) (M : Methods) (tk : termkey_t)
    (key : termkey_key) (force : Int) (hbuf : buffer_ok tk) :
    ∀ (R : List ti_keyinfo) (i : Nat) (s : ti_keyinfo),
      (∀ e ∈ R, e.seqlen = strlen e.seq) →
      R[i]? = some s →
      (∀ j e, j < i → R[j]? = some e →
        ¬ full_match char_signed e (buffered tk) ∧
        ¬ partial_match char_signed force e (buffered tk)) →
      getkey_loop char_signed M tk key force ((buffered tk).headD 0) R
        = getkey_loop char_signed M tk key force ((buffered tk).headD 0)
            (s :: R.drop (i + 1)) := by
  intro R
  induction R with
  | nil => intro i s _ hi; simp at hi
  | cons a R ih =>
    intro i s hlen hi hpre
    cases i with
    | zero =>
      simp only [List.getElem?_cons_zero, Option.some.injEq] at hi
      subst hi
      simp
    | succ i =>
      simp only [List.getElem?_cons_succ] at hi
      have ha := hpre 0 a (Nat.succ_pos i) (by simp)
      rw [getkey_loop_cons_skip char_signed M tk key force a R
        (hlen a (List.mem_cons_self a R)) hbuf ha.1 ha.2]
      rw [ih i s (fun e he => hlen e (List.mem_cons_of_mem a he)) hi
        (fun j e hj he => hpre (j + 1) e (Nat.succ_lt_succ hj) (by simpa using he))]
      simp

/-- The loop runs to its end when no entry matches. -/
theorem getkey_loop_none (char_signed : Bool) (M : Methods) (tk : termkey_t)
    (key : termkey_key) (force : Int) (hbuf : buffer_ok tk) :
    ∀ (R : List ti_keyinfo),
      (∀ e ∈ R, e.seqlen = strlen e.seq) →
      (∀ e ∈ R, ¬ full_match char_signed e (buffered tk) ∧
        ¬ partial_match char_signed force e (buffered tk)) →
      getkey_loop char_signed M tk key force ((buffered tk).headD 0) R = none := by
  intro R
  induction R with
  | nil => intro _ _; rfl
  | cons a R ih =>
    intro hlen hno
    have ha := hno a (List.mem_cons_self a R)
    rw [getkey_loop_cons_skip char_signed M tk key force a R
      (hlen a (List.mem_cons_self a R)) hbuf ha.1 ha.2]
    exact ih (fun e he => hlen e (List.mem_cons_of_mem a he))
      (fun e he => hno e (List.mem_cons_of_mem a he))

/-- With bytes in the buffer, `getkey` is its loop over the registry, followed by
`getkey_simple` when the loop runs to its end. -/
theorem getkey_eq_loop (char_signed : Bool) (M : Methods) (tk : termkey_t)
    (key : termkey_key) (force : Int) (hne : tk.buffcount ≠ 0) :
    getkey char_signed M tk key force =
      (getkey_loop char_signed M tk key force ((buffered tk).headD 0)
        (registry tk.driver_info)).getD (no_match M tk key) := by
  rw [getkey, if_neg hne, CHARAT_zero tk hne]
  unfold registry
  cases getkey_loop char_signed M tk key force ((buffered tk).headD 0)
      (tk.driver_info.seqs.take tk.driver_info.nseqs) <;> rfl

/-- The first matching entry, when it is a full match, is returned as the key. -/
theorem getkey_first_full (char_signed : Bool) (M : Methods) (tk : termkey_t)
    (key : termkey_key) (force : Int) (hreg : registry_ok tk.driver_info)
    (hbuf : buffer_ok tk) (hne : tk.buffcount ≠ 0) (i : Nat) (s : ti_keyinfo)
    (hi : (registry tk.driver_info)[i]? = some s)
    (hpre : ∀ j e, j < i → (registry tk.driver_info)[j]? = some e →
      ¬ full_match char_signed e (buffered tk) ∧
      ¬ partial_match char_signed force e (buffered tk))
    (hfull : full_match char_signed s (buffered tk)) :
    getkey char_signed M tk key force = matched M tk s (strlen s.seq) := by
  rw [getkey_eq_loop char_signed M tk key force hne,
    getkey_loop_skip_to char_signed M tk key force hbuf _ i s hreg hi hpre,
    getkey_loop_cons_full char_signed M tk key force s _
      (hreg s (List.getElem?_mem hi)) hbuf hfull]
  rfl

/-- The first matching entry, when it is a partial match, makes `getkey` ask for
more input. -/
theorem getkey_first_again (char_signed : Bool) (M : Methods) (tk : termkey_t)
    (key : termkey_key) (force : Int) (hreg : registry_ok tk.driver_info)
    (hbuf : buffer_ok tk) (hne : tk.buffcount ≠ 0) (i : Nat) (s : ti_keyinfo)
    (hi : (registry tk.driver_info)[i]? = some s)
    (hpre : ∀ j e, j < i → (registry tk.driver_info)[j]? = some e →
      ¬ full_match char_signed e (buffered tk) ∧
      ¬ partial_match char_signed force e (buffered tk))
    (hpart : partial_match char_signed force s (buffered tk)) :
    getkey char_signed M tk key force = need_more_input tk key := by
  rw [getkey_eq_loop char_signed M tk key force hne,
    getkey_loop_skip_to char_signed M tk key force hbuf _ i s hreg hi hpre,
    getkey_loop_cons_again char_signed M tk key force s _
      (hreg s (List.getElem?_mem hi)) hbuf hpart]
  rfl

/-- With no matching entry `getkey` hands over to `getkey_simple`. -/
theorem getkey_no_hit (char_signed : Bool) (M : Methods) (tk : termkey_t)
    (key : termkey_key) (force : Int) (hreg : registry_ok tk.driver_info)
    (hbuf : buffer_ok tk) (hne : tk.buffcount ≠ 0)
    (hno : ∀ e ∈ registry tk.driver_info,
      ¬ full_match char_signed e (buffered tk) ∧
      ¬ partial_match char_signed force e (buffered tk)) :
    getkey char_signed M tk key force = no_match M tk key := by
  rw [getkey_eq_loop char_signed M tk key force hne,
    getkey_loop_none char_signed M tk key force hbuf _ hreg hno]
  rfl

/-- The entries before index `i` are the first `i` entries. -/
theorem forall_mem_take_iff (P : ti_keyinfo → Prop) :
    ∀ (R : List ti_keyinfo) (i : Nat),
      (∀ e ∈ R.take i, P e) ↔ (∀ (j : Nat) (e : ti_keyinfo), j < i → R[j]? = some e → P e) := by
  intro R
  induction R with
  | nil =>
    intro i
    constructor
    · intro _ j e _ he; simp at he
    · intro _ e he; simp at he
  | cons a R ih =>
    intro i
    cases i with
    | zero =>
      constructor
      · intro _ j e hj _; exact absurd hj (Nat.not_lt_zero j)
      · intro _ e he; simp at he
    | succ i =>
      rw [List.take_succ_cons]
      constructor
      · intro h j e hj he
        cases j with
        | zero =>
          simp only [List.getElem?_cons_zero, Option.some.injEq] at he
          subst he
          exact h a (List.mem_cons_self a _)
        | succ j =>
          simp only [List.getElem?_cons_succ] at he
          exact (ih i).mp (fun e he => h e (List.mem_cons_of_mem a he)) j e
            (Nat.lt_of_succ_lt_succ hj) he
      · intro h e he
        rcases List.mem_cons.mp he with rfl | he
        · exact h 0 e (Nat.succ_pos i) (by simp)
        · exact (ih i).mpr (fun j e hj hje => h (j + 1) e (Nat.succ_lt_succ hj)
            (by simpa using hje)) e he

/-! ## The scan as the first matching entry -/

/-- On a non-empty buffer `B`, let entry `i` be the first one that passes the first-byte
test of the source (`seq[0]`, a plain `char`, against `b0`, an `unsigned char`) and
either is no longer than `B` and equals the first bytes of `B` or is longer than `B`,
with `force` off, and starts with `B`.  In the first case `getkey` returns
`TERMKEY_RES_KEY` with the type and sym of entry `i`, its `modifier_set` as modifiers,
and eats exactly the sequence's length; in the second it returns `TERMKEY_RES_AGAIN`;
and when no entry matches it returns what `getkey_simple` does. -/
theorem getkey_scan_first_match (char_signed : Bool) (M : Methods) (tk : termkey_t)
    (key : termkey_key) (force : Int) (hreg : registry_ok tk.driver_info)
    (hbuf : buffer_ok tk) (hne : tk.buffcount ≠ 0) :
    (∀ (i : Nat) (s : ti_keyinfo), (registry tk.driver_info)[i]? = some s →
      (∀ e ∈ (registry tk.driver_info).take i,
        ¬ full_match char_signed e (buffered tk) ∧
        ¬ partial_match char_signed force e (buffered tk)) →
      (full_match char_signed s (buffered tk) →
        getkey char_signed M tk key force = matched M tk s (strlen s.seq)) ∧
      (partial_match char_signed force s (buffered tk) →
        getkey char_signed M tk key force = need_more_input tk key)) ∧
    ((∀ e ∈ registry tk.driver_info,
        ¬ full_match char_signed e (buffered tk) ∧
        ¬ partial_match char_signed force e (buffered tk)) →
      getkey char_signed M tk key force = no_match M tk key) := by
  refine ⟨fun i s hi hpre => ⟨?_, ?_⟩, ?_⟩
  · exact getkey_first_full char_signed M tk key force hreg hbuf hne i s hi
      ((forall_mem_take_iff _ _ i).mp hpre)
  · exact getkey_first_again char_signed M tk key force hreg hbuf hne i s hi
      ((forall_mem_take_iff _ _ i).mp hpre)
  · exact getkey_no_hit char_signed M tk key force hreg hbuf hne

/-! ## Matches and prefixes -/

theorem char_value_of_seven_bit (char_signed : Bool) (b : Nat)
    (h : char_signed = false ∨ b < 128) : char_value char_signed b = (b : Int) := by
  unfold char_value
  rcases h with h | h
  · simp [h]
  · rw [if_neg (by omega)]

theorem starts_of_full_match {char_signed : Bool} {e : ti_keyinfo} {B : List Nat}
    (h : full_match char_signed e B) : cstring e.seq <+: B := by
  rw [h.2.2]; exact List.take_prefix _ _

theorem starts_of_partial_match {char_signed : Bool} {force : Int} {e : ti_keyinfo}
    {B : List Nat} (h : partial_match char_signed force e B) : B <+: cstring e.seq := by
  have h4 := h.2.2.2
  rw [h4]; exact List.take_prefix _ _

theorem cstring_ne_nil_of_first_byte_eq {char_signed : Bool} {e : ti_keyinfo}
    {B : List Nat} (h : first_byte_eq char_signed e B) (hB : B.headD 0 ≠ 0) :
    cstring e.seq ≠ [] := by
  intro hnil
  rw [cstring_eq_nil_iff] at hnil
  unfold first_byte_eq at h
  rw [hnil] at h
  have : char_value char_signed 0 = 0 := by
    unfold char_value; rw [if_neg (by omega)]; rfl
  rw [this] at h
  exact hB (by exact_mod_cast h.symm)

theorem headD_eq_of_starts {a b : List Nat} (h : a <+: b) (ha : a ≠ []) :
    a.headD 0 = b.headD 0 := by
  obtain ⟨t, rfl⟩ := h
  cases a with
  | nil => exact absurd rfl ha
  | cons c a => rfl

theorem headD_ne_zero_of_cstring {B s : List Nat} (hB : B = cstring s) (hne : B ≠ []) :
    B.headD 0 ≠ 0 := by
  cases B with
  | nil => exact absurd rfl hne
  | cons c B =>
    intro h0
    have hc : c = 0 := h0
    have hmem : c ∈ cstring s := by rw [← hB]; exact List.mem_cons_self c B
    rw [hc] at hmem
    exact not_zero_mem_cstring s hmem

theorem headD_ne_zero_of_prefix_cstring {B s : List Nat} (hB : B <+: cstring s)
    (hne : B ≠ []) : B.headD 0 ≠ 0 := by
  cases B with
  | nil => exact absurd rfl hne
  | cons c B =>
    intro h0
    have hc : c = 0 := h0
    have hmem : c ∈ cstring s := hB.subset (List.mem_cons_self c B)
    rw [hc] at hmem
    exact not_zero_mem_cstring s hmem

theorem full_match_of_starts {char_signed : Bool} {e : ti_keyinfo} {B : List Nat}
    (hf : first_byte_eq char_signed e B) (hp : cstring e.seq <+: B) :
    full_match char_signed e B := by
  refine ⟨hf, ?_, ?_⟩
  · rw [strlen_eq_length_cstring]; exact hp.length_le
  · rw [strlen_eq_length_cstring]; exact List.prefix_iff_eq_take.mp hp

theorem partial_match_of_starts {char_signed : Bool} {force : Int} {e : ti_keyinfo}
    {B : List Nat} (hf : first_byte_eq char_signed e B) (hlt : B.length < strlen e.seq)
    (hforce : force = 0) (hp : B <+: cstring e.seq) :
    partial_match char_signed force e B :=
  ⟨hf, hlt, hforce, List.prefix_iff_eq_take.mp hp⟩

/-- An entry whose sequence is comparable with a buffer that holds no NUL and starts
with a byte on which `char` and `unsigned char` agree passes the first-byte test. -/
theorem first_byte_eq_of_comparable {char_signed : Bool} {e : ti_keyinfo} {B : List Nat}
    (h7 : char_signed = false ∨ B.headD 0 < 128) (hB : B ≠ []) (he : cstring e.seq ≠ [])
    (hp : cstring e.seq <+: B ∨ B <+: cstring e.seq) : first_byte_eq char_signed e B := by
  have hh : e.seq.headD 0 = B.headD 0 := by
    rw [← headD_cstring]
    rcases hp with hp | hp
    · exact headD_eq_of_starts hp he
    · exact (headD_eq_of_starts hp hB).symm
  unfold first_byte_eq
  rw [hh]
  exact char_value_of_seven_bit char_signed _ h7

theorem buffcount_ne_zero (tk : termkey_t) (hbuf : buffer_ok tk) (hB : buffered tk ≠ []) :
    tk.buffcount ≠ 0 := by
  intro h0
  apply hB
  have := length_buffered tk hbuf
  rw [h0] at this
  exact List.length_eq_zero.mp this

/-! ## C2 -/

/-- C2, as stated, fails: in the registry `"\x1bOA"`, `"\x1bO"` the sequence `"\x1bO"`
is registered, yet with the buffer `"\x1bO"` and `force` off `getkey` answers
`TERMKEY_RES_AGAIN` and eats nothing, because the longer entry comes first. -/
theorem C2_counterexample :
    (registry (longer_first_registry sample_consts)).map ti_keyinfo.seq
      = [[27, 79, 65], [27, 79]] ∧
    buffered (tk_of (longer_first_registry sample_consts) [27, 79]) = [27, 79] ∧
    getkey false methods_model (tk_of (longer_first_registry sample_consts) [27, 79])
        sample_key 0
      = need_more_input (tk_of (longer_first_registry sample_consts) [27, 79]) sample_key ∧
    (getkey false methods_model (tk_of (longer_first_registry sample_consts) [27, 79])
        sample_key 0).result ≠ termkey_result.TERMKEY_RES_KEY := by
  refine ⟨by decide, by decide, by decide, by decide⟩

/-- The index form of C2 as amended, proved by induction on the index of `S`. -/
theorem exact_sequence_matched_at (char_signed : Bool) (M : Methods) (tk : termkey_t)
    (key : termkey_key) (i : Nat) (s : ti_keyinfo)
    (hreg : registry_ok tk.driver_info) (hbuf : buffer_ok tk)
    (hi : (registry tk.driver_info)[i]? = some s)
    (hS : cstring s.seq ≠ [])
    (hB : buffered tk = cstring s.seq)
    (h7 : char_signed = false ∨ s.seq.headD 0 < 128)
    (hpre : ∀ (j : Nat) (e : ti_keyinfo), j < i →
      (registry tk.driver_info)[j]? = some e → cstring e.seq ≠ [] →
      (cstring e.seq <+: cstring s.seq ∨ cstring s.seq <+: cstring e.seq) →
      cstring e.seq = cstring s.seq) :
    (getkey char_signed M tk key 0).result = termkey_result.TERMKEY_RES_KEY ∧
    (getkey char_signed M tk key 0).calls = [Call.eat_bytes (strlen s.seq)] ∧
    (getkey char_signed M tk key 0).tk = M.eat_bytes tk (strlen s.seq) := by
  induction i using Nat.strong_induction_on generalizing s with
  | _ i ih =>
    have hBne : buffered tk ≠ [] := hB ▸ hS
    have hne := buffcount_ne_zero tk hbuf hBne
    have hB0 : (buffered tk).headD 0 ≠ 0 := headD_ne_zero_of_cstring hB hBne
    have h7B : char_signed = false ∨ (buffered tk).headD 0 < 128 := by
      rw [hB, headD_cstring]; exact h7
    by_cases hex : ∃ (j : Nat) (e : ti_keyinfo), j < i ∧
        (registry tk.driver_info)[j]? = some e ∧ cstring e.seq = cstring s.seq
    · obtain ⟨j, e, hj, he, heq⟩ := hex
      have hlen : strlen e.seq = strlen s.seq := by
        rw [strlen_eq_length_cstring, strlen_eq_length_cstring, heq]
      have := ih j hj e he (heq ▸ hS) (hB.trans heq.symm)
        (by rw [← headD_cstring, heq, headD_cstring]; exact h7)
        (fun j' e' hj' he' hne' hcmp => by
          rw [heq] at hcmp ⊢
          exact hpre j' e' (lt_trans hj' hj) he' hne' hcmp)
      rw [hlen] at this
      exact this
    · have hfull : full_match char_signed s (buffered tk) :=
        full_match_of_starts
          (first_byte_eq_of_comparable h7B hBne hS (Or.inl (hB ▸ List.prefix_refl _)))
          (hB ▸ List.prefix_refl _)
      have hnone : ∀ (j : Nat) (e : ti_keyinfo), j < i →
          (registry tk.driver_info)[j]? = some e →
          ¬ full_match char_signed e (buffered tk) ∧
          ¬ partial_match char_signed 0 e (buffered tk) := by
        intro j e hj he
        have hneq : cstring e.seq ≠ cstring s.seq := fun h => hex ⟨j, e, hj, he, h⟩
        constructor
        · intro hf
          have hp := starts_of_full_match hf
          rw [hB] at hp
          exact hneq (hpre j e hj he (cstring_ne_nil_of_first_byte_eq hf.1 hB0) (Or.inl hp))
        · intro hp
          have hpp := starts_of_partial_match hp
          rw [hB] at hpp
          exact hneq (hpre j e hj he (cstring_ne_nil_of_first_byte_eq hp.1 hB0) (Or.inr hpp))
      rw [getkey_first_full char_signed M tk key 0 hreg hbuf hne i s hi hnone hfull]
      exact ⟨rfl, rfl, rfl⟩

/-- C2, amended: for a registered non-empty sequence `S` whose first byte reads the
same as `char` and as `unsigned char`, if every non-empty sequence registered before
`S` that is a prefix of `S` or starts with `S` is `S` itself, then `getkey` with a
buffer equal to exactly `S` and `force` off returns `TERMKEY_RES_KEY` and eats exactly
`strlen(S)` bytes. -/
theorem C2_exact_sequence_matched (char_signed : Bool) (M : Methods) (tk : termkey_t)
    (key : termkey_key) (i : Nat) (s : ti_keyinfo)
    (hreg : registry_ok tk.driver_info) (hbuf : buffer_ok tk)
    (hi : (registry tk.driver_info)[i]? = some s)
    (hS : cstring s.seq ≠ [])
    (hB : buffered tk = cstring s.seq)
    (h7 : char_signed = false ∨ s.seq.headD 0 < 128)
    (hpre : ∀ e ∈ (registry tk.driver_info).take i, cstring e.seq ≠ [] →
      (cstring e.seq <+: cstring s.seq ∨ cstring s.seq <+: cstring e.seq) →
      cstring e.seq = cstring s.seq) :
    (getkey char_signed M tk key 0).result = termkey_result.TERMKEY_RES_KEY ∧
    (getkey char_signed M tk key 0).calls = [Call.eat_bytes (strlen s.seq)] ∧
    (getkey char_signed M tk key 0).tk = M.eat_bytes tk (strlen s.seq) :=
  exact_sequence_matched_at char_signed M tk key i s hreg hbuf hi hS hB h7
    ((forall_mem_take_iff _ _ i).mp hpre)

/-- C2, amended, at work: `"\x1bOB"` is entry 1 of the registry of spec 8.6, entry 0
neither is a prefix of it nor starts with it, and the buffer `"\x1bOB"` is matched with
3 bytes eaten. -/
theorem C2_exact_sequence_matched_witness :
    (getkey true methods_model (tk_of (cursor_registry sample_consts) [27, 79, 66])
        sample_key 0).result = termkey_result.TERMKEY_RES_KEY ∧
    (getkey true methods_model (tk_of (cursor_registry sample_consts) [27, 79, 66])
        sample_key 0).calls = [Call.eat_bytes 3] ∧
    (getkey true methods_model (tk_of (cursor_registry sample_consts) [27, 79, 66])
        sample_key 0).tk
      = eat_bytes_model (tk_of (cursor_registry sample_consts) [27, 79, 66]) 3 :=
  C2_exact_sequence_matched true methods_model
    (tk_of (cursor_registry sample_consts) [27, 79, 66]) sample_key 1
    { seq := [27, 79, 66], seqlen := 3,
      key := { type := termkey_type.TERMKEY_TYPE_KEYSYM, sym := 8,
               modifier_mask := 0, modifier_set := 0 } }
    (by unfold registry_ok; decide) (by unfold buffer_ok; decide) (by decide) (by decide)
    (by decide) (Or.inr (by decide)) (by decide)

/-! ## C3 -/

/-- When no entry is a full match and some entry is a partial match, the loop returns
`TERMKEY_RES_AGAIN`. -/
theorem getkey_loop_partial_of_no_full (char_signed : Bool) (M : Methods) (tk : termkey_t)
    (key : termkey_key) (force : Int) (hbuf : buffer_ok tk) :
    ∀ (R : List ti_keyinfo),
      (∀ e ∈ R, e.seqlen = strlen e.seq) →
      (∀ e ∈ R, ¬ full_match char_signed e (buffered tk)) →
      (∃ e ∈ R, partial_match char_signed force e (buffered tk)) →
      getkey_loop char_signed M tk key force ((buffered tk).headD 0) R
        = some (need_more_input tk key) := by
  intro R
  induction R with
  | nil => intro _ _ h; obtain ⟨e, he, _⟩ := h; simp at he
  | cons a R ih =>
    intro hlen hnf hex
    by_cases hpa : partial_match char_signed force a (buffered tk)
    · exact getkey_loop_cons_again char_signed M tk key force a R
        (hlen a (List.mem_cons_self a R)) hbuf hpa
    · rw [getkey_loop_cons_skip char_signed M tk key force a R
        (hlen a (List.mem_cons_self a R)) hbuf (hnf a (List.mem_cons_self a R)) hpa]
      apply ih (fun e he => hlen e (List.mem_cons_of_mem a he))
        (fun e he => hnf e (List.mem_cons_of_mem a he))
      obtain ⟨e, he, hpe⟩ := hex
      rcases List.mem_cons.mp he with rfl | he'
      · exact absurd hpe hpa
      · exact ⟨e, he', hpe⟩

/-- C3, as stated, fails: in the registry `"\x1b"`, `"\x1bOA"` the buffer `"\x1bO"` is a
strict prefix of the registered `"\x1bOA"` and equals no registered sequence, yet with
`force` off `getkey` returns `TERMKEY_RES_KEY` for the entry `"\x1b"`, eating 1 byte. -/
theorem C3_counterexample :
    (registry (escape_first_registry sample_consts)).map ti_keyinfo.seq
      = [[27], [27, 79, 65]] ∧
    buffered (tk_of (escape_first_registry sample_consts) [27, 79]) = [27, 79] ∧
    getkey false methods_model (tk_of (escape_first_registry sample_consts) [27, 79])
        sample_key 0
      = { result := termkey_result.TERMKEY_RES_KEY
          tk := eat_bytes_model (tk_of (escape_first_registry sample_consts) [27, 79]) 1
          key := { type := termkey_type.TERMKEY_TYPE_KEYSYM, code_sym := 11, modifiers := 0 }
          calls := [Call.eat_bytes 1] } ∧
    (getkey false methods_model (tk_of (escape_first_registry sample_consts) [27, 79])
        sample_key 0).result ≠ termkey_result.TERMKEY_RES_AGAIN := by
  refine ⟨by decide, by decide, by decide, by decide⟩

/-- C3, amended: for a registered sequence `S` and a strict non-empty prefix `P` of `S`
whose first byte reads the same as `char` and as `unsigned char`, if no non-empty
registered sequence is a prefix of `P` (equal to `P` or shorter), then `getkey` with
the buffer `P` and `force` off returns `TERMKEY_RES_AGAIN`, leaving `*tk` and `*key`
as they were and calling nothing. -/
theorem C3_strict_prefix_needs_more_input (char_signed : Bool) (M : Methods)
    (tk : termkey_t) (key : termkey_key) (s : ti_keyinfo)
    (hreg : registry_ok tk.driver_info) (hbuf : buffer_ok tk)
    (hs : s ∈ registry tk.driver_info)
    (hP : buffered tk ≠ [])
    (hpre : buffered tk <+: cstring s.seq)
    (hstrict : buffered tk ≠ cstring s.seq)
    (h7 : char_signed = false ∨ (buffered tk).headD 0 < 128)
    (hno : ∀ e ∈ registry tk.driver_info, cstring e.seq ≠ [] →
      ¬ cstring e.seq <+: buffered tk) :
    getkey char_signed M tk key 0 = need_more_input tk key := by
  have hne := buffcount_ne_zero tk hbuf hP
  have hB0 : (buffered tk).headD 0 ≠ 0 := headD_ne_zero_of_prefix_cstring hpre hP
  have hSne : cstring s.seq ≠ [] := by
    intro h; rw [h] at hpre; exact hP (List.prefix_nil.mp hpre)
  have hlt : (buffered tk).length < strlen s.seq := by
    rw [strlen_eq_length_cstring]
    rcases Nat.lt_or_ge (buffered tk).length (cstring s.seq).length with h | h
    · exact h
    · exact absurd (List.IsPrefix.eq_of_length_le hpre h) hstrict
  have hpart : partial_match char_signed 0 s (buffered tk) :=
    partial_match_of_starts (first_byte_eq_of_comparable h7 hP hSne (Or.inr hpre)) hlt rfl hpre
  rw [getkey_eq_loop char_signed M tk key 0 hne,
    getkey_loop_partial_of_no_full char_signed M tk key 0 hbuf _ hreg
      (fun e he hf => hno e he (cstring_ne_nil_of_first_byte_eq hf.1 hB0)
        (starts_of_full_match hf))
      ⟨s, hs, hpart⟩]
  rfl

/-- C3, amended, at work: the buffer `"\x1bO"` with the registry of spec 8.6. -/
theorem C3_strict_prefix_needs_more_input_witness :
    getkey true methods_model (tk_of (cursor_registry sample_consts) [27, 79]) sample_key 0
      = need_more_input (tk_of (cursor_registry sample_consts) [27, 79]) sample_key :=
  C3_strict_prefix_needs_more_input true methods_model
    (tk_of (cursor_registry sample_consts) [27, 79]) sample_key
    { seq := [27, 79, 65], seqlen := 3,
      key := { type := termkey_type.TERMKEY_TYPE_KEYSYM, sym := 7,
               modifier_mask := 0, modifier_set := 0 } }
    (by unfold registry_ok; decide) (by unfold buffer_ok; decide) (by decide) (by decide)
    (by decide) (by decide) (Or.inr (by decide)) (by decide)

/-! ## C4 -/

/-- C4, as stated, fails: in the registry `"\x1b"`, `"\x1bOA"` the buffer `"\x1bO"` is a
strict prefix of the registered `"\x1bOA"` and equals no registered sequence, yet with
`force` on `getkey` does not fall through to `getkey_simple`: it returns
`TERMKEY_RES_KEY` for the entry `"\x1b"`, eating 1 byte. -/
theorem C4_counterexample :
    (registry (escape_first_registry sample_consts)).map ti_keyinfo.seq
      = [[27], [27, 79, 65]] ∧
    buffered (tk_of (escape_first_registry sample_consts) [27, 79]) = [27, 79] ∧
    getkey false methods_model (tk_of (escape_first_registry sample_consts) [27, 79])
        sample_key 1
      = { result := termkey_result.TERMKEY_RES_KEY
          tk := eat_bytes_model (tk_of (escape_first_registry sample_consts) [27, 79]) 1
          key := { type := termkey_type.TERMKEY_TYPE_KEYSYM, code_sym := 11, modifiers := 0 }
          calls := [Call.eat_bytes 1] } ∧
    (getkey false methods_model (tk_of (escape_first_registry sample_consts) [27, 79])
        sample_key 1).calls ≠ [Call.getkey_simple] := by
  refine ⟨by decide, by decide, by decide, by decide⟩

/-- C4, amended: for a registered sequence `S` and a strict non-empty prefix `P` of
`S`, `getkey` with the buffer `P` and `force` on falls through to `getkey_simple`
unless some non-empty registered sequence is a prefix of `P` (equal to `P` or
shorter). -/
theorem C4_forced_prefix_no_match (char_signed : Bool) (M : Methods)
    (tk : termkey_t) (key : termkey_key) (force : Int) (s : ti_keyinfo)
    (hreg : registry_ok tk.driver_info) (hbuf : buffer_ok tk)
    (_hs : s ∈ registry tk.driver_info)
    (hP : buffered tk ≠ [])
    (hpre : buffered tk <+: cstring s.seq)
    (_hstrict : buffered tk ≠ cstring s.seq)
    (hforce : force ≠ 0)
    (hno : ∀ e ∈ registry tk.driver_info, cstring e.seq ≠ [] →
      ¬ cstring e.seq <+: buffered tk) :
    getkey char_signed M tk key force = no_match M tk key := by
  have hne := buffcount_ne_zero tk hbuf hP
  have hB0 : (buffered tk).headD 0 ≠ 0 := headD_ne_zero_of_prefix_cstring hpre hP
  exact getkey_no_hit char_signed M tk key force hreg hbuf hne
    (fun e he => ⟨fun hf => hno e he (cstring_ne_nil_of_first_byte_eq hf.1 hB0)
        (starts_of_full_match hf),
      fun hp => hforce hp.2.2.1⟩)

/-- C4, amended, at work: the buffer `"\x1bO"` with the registry of spec 8.6 and `force`
on goes to `getkey_simple`. -/
theorem C4_forced_prefix_no_match_witness :
    getkey true methods_model (tk_of (cursor_registry sample_consts) [27, 79]) sample_key 1
      = no_match methods_model (tk_of (cursor_registry sample_consts) [27, 79]) sample_key :=
  C4_forced_prefix_no_match true methods_model
    (tk_of (cursor_registry sample_consts) [27, 79]) sample_key 1
    { seq := [27, 79, 65], seqlen := 3,
      key := { type := termkey_type.TERMKEY_TYPE_KEYSYM, sym := 7,
               modifier_mask := 0, modifier_set := 0 } }
    (by unfold registry_ok; decide) (by unfold buffer_ok; decide) (by decide) (by decide)
    (by decide) (by decide) (by decide) (by decide)

/-! ## C5 -/

/-- C5, as stated, fails: in the registry `"\x1bO"`, `"\x1bOA"` the first sequence is a
strict prefix of the second, yet with the buffer `"\x1bOA"` `getkey` returns the key of
`"\x1bO"` (End) and eats 2 bytes, whether `force` is off or on. -/
theorem C5_counterexample :
    (registry (shorter_first_registry sample_consts)).map ti_keyinfo.seq
      = [[27, 79], [27, 79, 65]] ∧
    buffered (tk_of (shorter_first_registry sample_consts) [27, 79, 65]) = [27, 79, 65] ∧
    getkey false methods_model (tk_of (shorter_first_registry sample_consts) [27, 79, 65])
        sample_key 0
      = { result := termkey_result.TERMKEY_RES_KEY
          tk := eat_bytes_model
            (tk_of (shorter_first_registry sample_consts) [27, 79, 65]) 2
          key := { type := termkey_type.TERMKEY_TYPE_KEYSYM, code_sym := 19, modifiers := 0 }
          calls := [Call.eat_bytes 2] } ∧
    getkey false methods_model (tk_of (shorter_first_registry sample_consts) [27, 79, 65])
        sample_key 1
      = { result := termkey_result.TERMKEY_RES_KEY
          tk := eat_bytes_model
            (tk_of (shorter_first_registry sample_consts) [27, 79, 65]) 2
          key := { type := termkey_type.TERMKEY_TYPE_KEYSYM, code_sym := 19, modifiers := 0 }
          calls := [Call.eat_bytes 2] } ∧
    (getkey false methods_model (tk_of (shorter_first_registry sample_consts) [27, 79, 65])
        sample_key 0).calls ≠ [Call.eat_bytes 3] := by
  refine ⟨by decide, by decide, by decide, by decide, by decide⟩

/-- C5, amended: let `A` and `L` be registered with `A` a strict prefix of `L`, the
first byte of `L` reading the same as `char` and as `unsigned char`.  If no non-empty
sequence registered before `L` is a prefix of `L` (so `A` comes after `L`) and, when
`force` is off, none registered before `L` starts with `L`, then `getkey` with a
buffer equal to `L` returns `TERMKEY_RES_KEY` with the key of `L` and eats
`strlen(L)` bytes, for both values of `force`. -/
theorem C5_longer_sequence_matched (char_signed : Bool) (M : Methods)
    (tk : termkey_t) (key : termkey_key) (force : Int) (i k : Nat) (l a : ti_keyinfo)
    (hreg : registry_ok tk.driver_info) (hbuf : buffer_ok tk)
    (hi : (registry tk.driver_info)[i]? = some l)
    (_ha : (registry tk.driver_info)[k]? = some a)
    (hAL : cstring a.seq <+: cstring l.seq)
    (hALne : cstring a.seq ≠ cstring l.seq)
    (hB : buffered tk = cstring l.seq)
    (h7 : char_signed = false ∨ l.seq.headD 0 < 128)
    (hpre : ∀ e ∈ (registry tk.driver_info).take i, cstring e.seq ≠ [] →
      ¬ cstring e.seq <+: cstring l.seq ∧
      (force = 0 → ¬ cstring l.seq <+: cstring e.seq)) :
    getkey char_signed M tk key force = matched M tk l (strlen l.seq) := by
  have hpre := (forall_mem_take_iff _ _ i).mp hpre
  have hL : cstring l.seq ≠ [] := by
    intro h
    rw [h] at hAL hALne
    exact hALne (List.prefix_nil.mp hAL)
  have hBne : buffered tk ≠ [] := hB ▸ hL
  have hne := buffcount_ne_zero tk hbuf hBne
  have hB0 : (buffered tk).headD 0 ≠ 0 := headD_ne_zero_of_cstring hB hBne
  have h7B : char_signed = false ∨ (buffered tk).headD 0 < 128 := by
    rw [hB, headD_cstring]; exact h7
  have hfull : full_match char_signed l (buffered tk) :=
    full_match_of_starts
      (first_byte_eq_of_comparable h7B hBne hL (Or.inl (hB ▸ List.prefix_refl _)))
      (hB ▸ List.prefix_refl _)
  refine getkey_first_full char_signed M tk key force hreg hbuf hne i l hi ?_ hfull
  intro j e hj he
  constructor
  · intro hf
    have hp := starts_of_full_match hf
    rw [hB] at hp
    exact (hpre j e hj he (cstring_ne_nil_of_first_byte_eq hf.1 hB0)).1 hp
  · intro hp
    have hpp := starts_of_partial_match hp
    rw [hB] at hpp
    exact (hpre j e hj he (cstring_ne_nil_of_first_byte_eq hp.1 hB0)).2 hp.2.2.1 hpp

/-- C5, amended, at work: in the registry `"\x1b[A"`, `"\x1bOA"`, `"\x1bO"` the sequence
`"\x1bOA"` comes before its prefix `"\x1bO"` and after an entry that is neither a prefix
of it nor starts with it; the buffer `"\x1bOA"` is matched as Up with 3 bytes eaten. -/
theorem C5_longer_sequence_matched_witness :
    getkey true methods_model (tk_of (three_registry sample_consts) [27, 79, 65])
        sample_key 0
      = { result := termkey_result.TERMKEY_RES_KEY
          tk := eat_bytes_model (tk_of (three_registry sample_consts) [27, 79, 65]) 3
          key := { type := termkey_type.TERMKEY_TYPE_KEYSYM, code_sym := 7, modifiers := 0 }
          calls := [Call.eat_bytes 3] } :=
  C5_longer_sequence_matched true methods_model
    (tk_of (three_registry sample_consts) [27, 79, 65]) sample_key 0 1 2
    { seq := [27, 79, 65], seqlen := 3,
      key := { type := termkey_type.TERMKEY_TYPE_KEYSYM, sym := 7,
               modifier_mask := 0, modifier_set := 0 } }
    { seq := [27, 79], seqlen := 2,
      key := { type := termkey_type.TERMKEY_TYPE_KEYSYM, sym := 19,
               modifier_mask := 0, modifier_set := 0 } }
    (by unfold registry_ok; decide) (by unfold buffer_ok; decide) (by decide) (by decide)
    (by decide) (by decide) (by decide) (Or.inr (by decide)) (by decide)

/-! ## C6 -/

theorem registry_cursor_registry (K : Consts) :
    registry (cursor_registry K)
      = [ { seq := [27, 79, 65], seqlen := 3,
            key := { type := termkey_type.TERMKEY_TYPE_KEYSYM, sym := K.TERMKEY_SYM_UP,
                     modifier_mask := 0, modifier_set := 0 } },
          { seq := [27, 79, 66], seqlen := 3,
            key := { type := termkey_type.TERMKEY_TYPE_KEYSYM, sym := K.TERMKEY_SYM_DOWN,
                     modifier_mask := 0, modifier_set := 0 } } ] := rfl

/-- C6: with the registry `"\x1bOA"` for Up, `"\x1bOB"` for Down (registered in that order
through `register_seq`): the buffer `"\x1bO"` gives `TERMKEY_RES_AGAIN` with `force` off
and the result of `getkey_simple` (nothing eaten by the scan) with `force` on; the
buffer `"\x1bOA"` gives `TERMKEY_RES_KEY` with the symbol Up and exactly 3 bytes eaten,
for both values of `force`. -/
theorem C6_cursor_key_scenario (char_signed : Bool) (M : Methods) (K : Consts)
    (tk : termkey_t) (key : termkey_key) (force : Int)
    (hti : tk.driver_info = cursor_registry K) (hbuf : buffer_ok tk) :
    (buffered tk = [27, 79] →
      (force = 0 → getkey char_signed M tk key force = need_more_input tk key) ∧
      (force ≠ 0 → getkey char_signed M tk key force = no_match M tk key)) ∧
    (buffered tk = [27, 79, 65] →
      getkey char_signed M tk key force
        = { result := termkey_result.TERMKEY_RES_KEY
            tk := M.eat_bytes tk 3
            key := { type := termkey_type.TERMKEY_TYPE_KEYSYM
                     code_sym := K.TERMKEY_SYM_UP, modifiers := 0 }
            calls := [Call.eat_bytes 3] }) := by
  have hR := registry_cursor_registry K
  rw [← hti] at hR
  have hreg : registry_ok tk.driver_info := by
    intro s hs
    rw [hR] at hs
    simp only [List.mem_cons, List.mem_singleton, List.not_mem_nil, or_false] at hs
    rcases hs with rfl | rfl <;> rfl
  have h27 : ∀ (e : ti_keyinfo) (B : List Nat), e.seq.headD 0 = 27 → B.headD 0 = 27 →
      first_byte_eq char_signed e B := by
    intro e B he hB
    unfold first_byte_eq
    rw [he, hB]
    exact char_value_of_seven_bit char_signed 27 (Or.inr (by decide))
  refine ⟨fun hB => ⟨fun hf => ?_, fun hf => ?_⟩, fun hB => ?_⟩
  · subst hf
    have hne := buffcount_ne_zero tk hbuf (by rw [hB]; decide)
    refine getkey_first_again char_signed M tk key 0 hreg hbuf hne 0 _
      (by rw [hR]; rfl) (fun j _ hj _ => absurd hj (Nat.not_lt_zero j)) ?_
    rw [hB]
    exact ⟨h27 _ _ rfl rfl, (by decide : [27, 79].length < strlen [27, 79, 65]), rfl,
      (by decide : [27, 79] = List.take [27, 79].length (cstring [27, 79, 65]))⟩
  · have hne := buffcount_ne_zero tk hbuf (by rw [hB]; decide)
    refine getkey_no_hit char_signed M tk key force hreg hbuf hne ?_
    intro e he
    rw [hR] at he
    rw [hB]
    simp only [List.mem_cons, List.mem_singleton, List.not_mem_nil, or_false] at he
    refine ⟨fun h => ?_, fun h => hf h.2.2.1⟩
    have h2 := h.2.1
    rcases he with rfl | rfl
    · exact absurd h2 (by decide : ¬ strlen [27, 79, 65] ≤ [27, 79].length)
    · exact absurd h2 (by decide : ¬ strlen [27, 79, 66] ≤ [27, 79].length)
  · have hne := buffcount_ne_zero tk hbuf (by rw [hB]; decide)
    refine getkey_first_full char_signed M tk key force hreg hbuf hne 0 _
      (by rw [hR]; rfl) (fun j _ hj _ => absurd hj (Nat.not_lt_zero j)) ?_
    rw [hB]
    exact ⟨h27 _ _ rfl rfl, (by decide : strlen [27, 79, 65] ≤ [27, 79, 65].length),
      (by decide : cstring [27, 79, 65]
        = List.take (strlen [27, 79, 65]) [27, 79, 65])⟩

/-- C6 at work on a stream whose buffer holds `"\x1bO"`, with `force` on. -/
theorem C6_cursor_key_scenario_witness :
    getkey true methods_model (tk_of (cursor_registry sample_consts) [27, 79]) sample_key 1
      = no_match methods_model (tk_of (cursor_registry sample_consts) [27, 79]) sample_key :=
  ((C6_cursor_key_scenario true methods_model sample_consts
      (tk_of (cursor_registry sample_consts) [27, 79]) sample_key 1 rfl
      (by unfold buffer_ok; decide)).1 (by decide)).2 (by decide)

/-! ## C7 -/

/-- With `force` on, the loop either runs to its end or returns the key of an entry
that is a full match. -/
theorem getkey_loop_forced (char_signed : Bool) (M : Methods) (tk : termkey_t)
    (key : termkey_key) (force : Int) (hforce : force ≠ 0) (hbuf : buffer_ok tk) :
    ∀ (R : List ti_keyinfo),
      (∀ e ∈ R, e.seqlen = strlen e.seq) →
      getkey_loop char_signed M tk key force ((buffered tk).headD 0) R = none ∨
      ∃ s ∈ R, full_match char_signed s (buffered tk) ∧
        getkey_loop char_signed M tk key force ((buffered tk).headD 0) R
          = some (matched M tk s (strlen s.seq)) := by
  intro R
  induction R with
  | nil => intro _; exact Or.inl rfl
  | cons a R ih =>
    intro hlen
    by_cases hfa : full_match char_signed a (buffered tk)
    · exact Or.inr ⟨a, List.mem_cons_self a R, hfa,
        getkey_loop_cons_full char_signed M tk key force a R
          (hlen a (List.mem_cons_self a R)) hbuf hfa⟩
    · rw [getkey_loop_cons_skip char_signed M tk key force a R
        (hlen a (List.mem_cons_self a R)) hbuf hfa (fun hp => hforce hp.2.2.1)]
      rcases ih (fun e he => hlen e (List.mem_cons_of_mem a he)) with h | ⟨s, hs, hf, h⟩
      · exact Or.inl h
      · exact Or.inr ⟨s, List.mem_cons_of_mem a hs, hf, h⟩

/-- C7: with `force` on the scan never answers `TERMKEY_RES_AGAIN`.  On a non-empty
buffer `getkey` either returns `TERMKEY_RES_KEY` for a registered sequence that is no
longer than the buffer and equals its first bytes, eating that many bytes, or hands
over to `getkey_simple`; and whatever the loop itself returns is `TERMKEY_RES_KEY`. -/
theorem C7_force_never_again (char_signed : Bool) (M : Methods) (tk : termkey_t)
    (key : termkey_key) (force : Int) (hforce : force ≠ 0) (hne : tk.buffcount ≠ 0)
    (hreg : registry_ok tk.driver_info) (hbuf : buffer_ok tk) :
    ((∃ s ∈ registry tk.driver_info,
        strlen s.seq ≤ tk.buffcount ∧
        cstring s.seq = (buffered tk).take (strlen s.seq) ∧
        getkey char_signed M tk key force = matched M tk s (strlen s.seq)) ∨
      getkey char_signed M tk key force = no_match M tk key) ∧
    (∀ o : Outcome,
      getkey_loop char_signed M tk key force (CHARAT tk 0) (registry tk.driver_info)
        = some o →
      o.result = termkey_result.TERMKEY_RES_KEY) := by
  have hloop := getkey_loop_forced char_signed M tk key force hforce hbuf
    (registry tk.driver_info) hreg
  constructor
  · rw [getkey_eq_loop char_signed M tk key force hne]
    rcases hloop with h | ⟨s, hs, hf, h⟩
    · right; rw [h]; rfl
    · left
      refine ⟨s, hs, ?_, hf.2.2, ?_⟩
      · rw [← length_buffered tk hbuf]; exact hf.2.1
      · rw [h]; rfl
  · intro o ho
    rw [CHARAT_zero tk hne] at ho
    rcases hloop with h | ⟨s, _, _, h⟩
    · rw [h] at ho; exact absurd ho (by simp)
    · rw [h] at ho
      rw [← Option.some.inj ho]
      rfl

/-- C7 at work on the buffer `"\x1bO"` with the registry of spec 8.6 and `force` on. -/
theorem C7_force_never_again_witness :
    ((∃ s ∈ registry (tk_of (cursor_registry sample_consts) [27, 79]).driver_info,
        strlen s.seq ≤ (tk_of (cursor_registry sample_consts) [27, 79]).buffcount ∧
        cstring s.seq
          = (buffered (tk_of (cursor_registry sample_consts) [27, 79])).take
              (strlen s.seq) ∧
        getkey true methods_model (tk_of (cursor_registry sample_consts) [27, 79])
            sample_key 1
          = matched methods_model (tk_of (cursor_registry sample_consts) [27, 79]) s
              (strlen s.seq)) ∨
      getkey true methods_model (tk_of (cursor_registry sample_consts) [27, 79])
          sample_key 1
        = no_match methods_model (tk_of (cursor_registry sample_consts) [27, 79])
            sample_key) ∧
    (∀ o : Outcome,
      getkey_loop true methods_model (tk_of (cursor_registry sample_consts) [27, 79])
          sample_key 1 (CHARAT (tk_of (cursor_registry sample_consts) [27, 79]) 0)
          (registry (tk_of (cursor_registry sample_consts) [27, 79]).driver_info)
        = some o →
      o.result = termkey_result.TERMKEY_RES_KEY) :=
  C7_force_never_again true methods_model (tk_of (cursor_registry sample_consts) [27, 79])
    sample_key 1 (by decide) (by decide) (by unfold registry_ok; decide)
    (by unfold buffer_ok; decide)

/-! ## C8 -/

/-- C8 fails where plain `char` is signed: the registry holds the one sequence
`"\x9bA"` (Up) and the buffer holds exactly these two bytes, yet `s->seq[0]` is read as
the `char` -101 and compared with `b0` = 155, so the entry is skipped and `getkey` hands
over to `getkey_simple`; where plain `char` is unsigned the same input is returned as
Up with 2 bytes eaten. -/
theorem C8_signed_char_first_byte (M : Methods) (K : Consts) (key : termkey_key)
    (force : Int) :
    buffered (tk_of (csi8_registry K) [155, 65]) = [155, 65] ∧
    (registry (csi8_registry K)).map ti_keyinfo.seq = [[155, 65]] ∧
    char_value true 155 = -101 ∧
    getkey true M (tk_of (csi8_registry K) [155, 65]) key force
      = no_match M (tk_of (csi8_registry K) [155, 65]) key ∧
    getkey false M (tk_of (csi8_registry K) [155, 65]) key force
      = { result := termkey_result.TERMKEY_RES_KEY
          tk := M.eat_bytes (tk_of (csi8_registry K) [155, 65]) 2
          key := { type := termkey_type.TERMKEY_TYPE_KEYSYM
                   code_sym := K.TERMKEY_SYM_UP, modifiers := 0 }
          calls := [Call.eat_bytes 2] } := by
  refine ⟨rfl, rfl, by decide, rfl, rfl⟩

/-! ## Lemmas on `funcname2keysym` -/

theorem cstring_cons_of_ne_zero (c : Nat) (s : List Nat) (hc : c ≠ 0) :
    cstring (c :: s) = c :: cstring s := by
  simp only [cstring]
  rw [List.takeWhile_cons_of_pos (by simpa using hc)]

theorem cstring_cons_zero (s : List Nat) : cstring (0 :: s) = [] := by
  simp [cstring]

/-- `strcmp` answers 0 exactly when the two C strings hold the same bytes. -/
theorem strcmp_eq_zero_iff : ∀ (a b : List Nat), strcmp a b = 0 ↔ cstring a = cstring b := by
  intro a
  induction a with
  | nil =>
    intro b
    have h1 : cstring ([] : List Nat) = [] := rfl
    rw [strcmp, h1, eq_comm (a := ([] : List Nat)), cstring_eq_nil_iff]
    omega
  | cons c a ih =>
    intro b
    rw [strcmp]
    cases b with
    | nil =>
      have h1 : cstring ([] : List Nat) = [] := rfl
      rw [h1, cstring_eq_nil_iff]
      simp only [List.headD_nil, List.headD_cons]
      by_cases hc : c = 0
      · simp [hc]
      · simp only [ne_eq, hc, not_false_eq_true, if_true, iff_false]
        omega
    | cons d b =>
      simp only [List.headD_cons, List.tail_cons]
      by_cases hcd : c = d
      · subst hcd
        by_cases hc : c = 0
        · subst hc
          simp [cstring_cons_zero]
        · rw [if_neg (by simp), if_neg hc, ih b, cstring_cons_of_ne_zero c a hc,
            cstring_cons_of_ne_zero c b hc]
          simp
      · rw [if_pos hcd]
        have h1 : (c : Int) - (d : Int) ≠ 0 := by omega
        simp only [h1, false_iff]
        intro heq
        by_cases hc : c = 0
        · subst hc
          rw [cstring_cons_zero, cstring_cons_of_ne_zero d b (fun h => hcd h.symm)] at heq
          simp at heq
        · rw [cstring_cons_of_ne_zero c a hc] at heq
          by_cases hd : d = 0
          · subst hd
            rw [cstring_cons_zero] at heq
            simp at heq
          · rw [cstring_cons_of_ne_zero d b hd] at heq
            exact hcd (List.cons.inj heq).1

theorem funcs_names (K : Consts) : (funcs K).map func_entry.funcname = func_names := rfl

/-- A table hit means the name is one of the table's names. -/
theorem funcs_find_some (K : Consts) (funcname : List Nat) (e : func_entry)
    (h : (funcs K).find? (fun e => decide (strcmp funcname e.funcname = 0)) = some e) :
    e.funcname ∈ func_names ∧ cstring funcname = cstring e.funcname := by
  have h1 := List.find?_some h
  have h2 := List.mem_of_find?_eq_some h
  simp only [decide_eq_true_eq] at h1
  refine ⟨?_, (strcmp_eq_zero_iff _ _).mp h1⟩
  rw [← funcs_names K]
  exact List.mem_map_of_mem _ h2

/-- A name that is none of the table's names misses the table. -/
theorem funcs_find_none (K : Consts) (funcname : List Nat)
    (h : ∀ m ∈ func_names, cstring funcname ≠ cstring m) :
    (funcs K).find? (fun e => decide (strcmp funcname e.funcname = 0)) = none := by
  rw [List.find?_eq_none]
  intro e he
  simp only [decide_eq_true_eq]
  rw [strcmp_eq_zero_iff]
  apply h
  rw [← funcs_names K]
  exact List.mem_map_of_mem _ he

/-- The only table name that starts with `s` is `select`. -/
theorem func_names_s : ∀ m ∈ func_names, (cstring m).headD 0 = 115 →
    (cstring m).tail = [101, 108, 101, 99, 116] := by decide

/-- No table name is `elect`. -/
theorem func_names_elect : ∀ m ∈ func_names, [101, 108, 101, 99, 116] ≠ cstring m := by
  decide

/-- No table name is `f` followed by a digit. -/
theorem func_names_f : ∀ m ∈ func_names, (cstring m).headD 0 = 102 →
    isdigit ((cstring m).tail.headD 0) = false := by decide

theorem funcname2keysym_elect (K : Consts) (n : List Nat) (o : keyinfo)
    (hn : cstring n = [101, 108, 101, 99, 116]) : (funcname2keysym K n o).1 = 0 := by
  have hhead : n.headD 0 = 101 := by rw [← headD_cstring, hn]; rfl
  have hnone := funcs_find_none K n (fun m hm => by rw [hn]; exact func_names_elect m hm)
  cases n with
  | nil => simp [cstring] at hn
  | cons c rest =>
    have hc : c = 101 := hhead
    subst hc
    rw [funcname2keysym, hnone]
    simp

/-- The shift rule: a name `s` + `n` with `n` mapped is mapped through the recursive
call on `n`. -/
theorem funcname2keysym_s_cons (K : Consts) (n : List Nat) (o : keyinfo)
    (h : (funcname2keysym K n o).1 ≠ 0) :
    funcname2keysym K (115 :: n) o
      = (1, { type := (funcname2keysym K n o).2.type
              sym := (funcname2keysym K n o).2.sym
              modifier_mask :=
                (funcname2keysym K n o).2.modifier_mask ||| K.TERMKEY_KEYMOD_SHIFT
              modifier_set :=
                (funcname2keysym K n o).2.modifier_set ||| K.TERMKEY_KEYMOD_SHIFT }) := by
  have hnone : (funcs K).find? (fun e => decide (strcmp (115 :: n) e.funcname = 0)) = none := by
    cases hf : (funcs K).find? (fun e => decide (strcmp (115 :: n) e.funcname = 0)) with
    | none => rfl
    | some e =>
      exfalso
      obtain ⟨hmem, heq⟩ := funcs_find_some K _ e hf
      rw [cstring_cons_of_ne_zero 115 n (by decide)] at heq
      have htail := func_names_s _ hmem (by rw [← heq]; rfl)
      rw [← heq] at htail
      exact h (funcname2keysym_elect K n o htail)
  rw [funcname2keysym, hnone]
  simp only [List.headD_cons]
  rw [if_neg (by simp), if_pos trivial, if_pos h]

theorem decimal_value_cons (d : Nat) (ds : List Nat) :
    decimal_value (d :: ds) = (d - 48) * 10 ^ ds.length + decimal_value ds := by
  unfold decimal_value
  rw [List.map_cons, List.reverse_cons, Nat.ofDigits_append, Nat.ofDigits_singleton]
  simp only [List.length_reverse, List.length_map]
  ring

theorem atoi_digits_eq : ∀ (ds : List Nat) (acc : Nat), (∀ d ∈ ds, isdigit d = true) →
    atoi_digits ds acc = acc * 10 ^ ds.length + decimal_value ds := by
  intro ds
  induction ds with
  | nil => intro acc _; simp [atoi_digits, decimal_value]
  | cons d ds ih =>
    intro acc hd
    rw [atoi_digits, if_pos (hd d (List.mem_cons_self d ds)),
      ih _ (fun x hx => hd x (List.mem_cons_of_mem d hx)), decimal_value_cons]
    simp only [List.length_cons]
    ring

theorem to_int_of_lt (v : Nat) (h : v < 2 ^ 31) : to_int (v : Int) = (v : Int) := by
  unfold to_int
  have h' : v < 2147483648 := by simpa using h
  norm_num
  omega

/-- On a non-empty string of decimal digits `atoi` gives the number they write, as long
as it fits `int`. -/
theorem atoi_of_digits (ds : List Nat) (hne : ds ≠ []) (hd : ∀ d ∈ ds, isdigit d = true)
    (hr : decimal_value ds < 2 ^ 31) : atoi ds = (decimal_value ds : Int) := by
  cases ds with
  | nil => exact absurd rfl hne
  | cons d ds =>
    have hdig := hd d (List.mem_cons_self d ds)
    have hrange : 48 ≤ d ∧ d ≤ 57 := by simpa [isdigit] using hdig
    have hsp : isspace d = false := by
      simp only [isspace, decide_eq_false_iff_not]; omega
    have hval := atoi_digits_eq (d :: ds) 0 hd
    simp only [Nat.zero_mul, Nat.zero_add] at hval
    unfold atoi
    rw [List.dropWhile_cons_of_neg (by simp [hsp])]
    simp only [List.headD_cons]
    rw [if_neg (by omega), if_neg (by omega), hval]
    exact to_int_of_lt _ hr

/-! ## C9 -/

/-- C9: for every name `n` that `funcname2keysym` maps, it also maps `s` followed by
`n`, to the same type and symbol, with the modifier mask and the modifier set each the
value for `n` OR-ed with Shift (whatever the caller passes in, the zeros of `new_driver`
included).  In particular `sleft` is the key symbol Left and `sf3` is function key 3,
each with Shift in mask and set. -/
theorem C9_shift_of_mapped_name (K : Consts) (n : List Nat) (o : keyinfo)
    (h : (funcname2keysym K n o).1 ≠ 0) :
    funcname2keysym K (115 :: n) o
      = (1, { type := (funcname2keysym K n o).2.type
              sym := (funcname2keysym K n o).2.sym
              modifier_mask :=
                (funcname2keysym K n o).2.modifier_mask ||| K.TERMKEY_KEYMOD_SHIFT
              modifier_set :=
                (funcname2keysym K n o).2.modifier_set ||| K.TERMKEY_KEYMOD_SHIFT }) ∧
    (∀ (t : termkey_type) (s : Int),
      funcname2keysym K (bytes "left")
          { type := t, sym := s, modifier_mask := 0, modifier_set := 0 }
        = (1, { type := termkey_type.TERMKEY_TYPE_KEYSYM, sym := K.TERMKEY_SYM_LEFT
                modifier_mask := 0, modifier_set := 0 }) ∧
      funcname2keysym K (bytes "sleft")
          { type := t, sym := s, modifier_mask := 0, modifier_set := 0 }
        = (1, { type := termkey_type.TERMKEY_TYPE_KEYSYM, sym := K.TERMKEY_SYM_LEFT
                modifier_mask := K.TERMKEY_KEYMOD_SHIFT
                modifier_set := K.TERMKEY_KEYMOD_SHIFT }) ∧
      funcname2keysym K (bytes "sf3")
          { type := t, sym := s, modifier_mask := 0, modifier_set := 0 }
        = (1, { type := termkey_type.TERMKEY_TYPE_FUNCTION, sym := 3
                modifier_mask := K.TERMKEY_KEYMOD_SHIFT
                modifier_set := K.TERMKEY_KEYMOD_SHIFT })) := by
  refine ⟨funcname2keysym_s_cons K n o h, fun t s => ⟨rfl, ?_, ?_⟩⟩
  · have h1 : funcname2keysym K (bytes "sleft")
          { type := t, sym := s, modifier_mask := 0, modifier_set := 0 }
        = (1, { type := termkey_type.TERMKEY_TYPE_KEYSYM, sym := K.TERMKEY_SYM_LEFT
                modifier_mask := 0 ||| K.TERMKEY_KEYMOD_SHIFT
                modifier_set := 0 ||| K.TERMKEY_KEYMOD_SHIFT }) := rfl
    rw [h1, Nat.zero_or]
  · have h1 : funcname2keysym K (bytes "sf3")
          { type := t, sym := s, modifier_mask := 0, modifier_set := 0 }
        = (1, { type := termkey_type.TERMKEY_TYPE_FUNCTION, sym := 3
                modifier_mask := 0 ||| K.TERMKEY_KEYMOD_SHIFT
                modifier_set := 0 ||| K.TERMKEY_KEYMOD_SHIFT }) := rfl
    rw [h1, Nat.zero_or]

/-- C9 at work: `up` is mapped, so `sup` is mapped to Up with Shift. -/
theorem C9_shift_of_mapped_name_witness :
    funcname2keysym sample_consts (115 :: bytes "up") sample_key_out
      = (1, { type := termkey_type.TERMKEY_TYPE_KEYSYM, sym := 7
              modifier_mask := 1, modifier_set := 1 }) :=
  (C9_shift_of_mapped_name sample_consts (bytes "up") sample_key_out (by decide)).1

/-! ## C10 -/

/-- C10: for every name made of `f` and one or more decimal digits whose value fits
`int`, `funcname2keysym` succeeds with the type Function and the symbol equal to the
value of the digits, and the modifier mask and set stay 0 when the caller passes 0. -/
theorem C10_function_key (K : Consts) (ds : List Nat) (t : termkey_type) (s : Int)
    (hne : ds ≠ []) (hd : ∀ d ∈ ds, isdigit d = true) (hr : decimal_value ds < 2 ^ 31) :
    funcname2keysym K (102 :: ds)
        { type := t, sym := s, modifier_mask := 0, modifier_set := 0 }
      = (1, { type := termkey_type.TERMKEY_TYPE_FUNCTION, sym := (decimal_value ds : Int)
              modifier_mask := 0, modifier_set := 0 }) := by
  have hat := atoi_of_digits ds hne hd hr
  cases ds with
  | nil => exact absurd rfl hne
  | cons d ds =>
    have hdig := hd d (List.mem_cons_self d ds)
    have hd0 : d ≠ 0 := by
      intro h0; rw [h0] at hdig; exact absurd hdig (by decide)
    have hnone : (funcs K).find?
        (fun e => decide (strcmp (102 :: d :: ds) e.funcname = 0)) = none := by
      apply funcs_find_none
      intro m hm heq
      rw [cstring_cons_of_ne_zero 102 _ (by decide), cstring_cons_of_ne_zero d ds hd0] at heq
      have := func_names_f m hm (by rw [← heq]; rfl)
      rw [← heq] at this
      have h2 : isdigit d = false := this
      rw [hdig] at h2
      exact absurd h2 (by decide)
    rw [funcname2keysym, hnone]
    simp only [List.headD_cons, List.tail_cons]
    rw [if_pos ⟨trivial, hdig⟩, hat]

/-- C10 at work: `f12` is function key 12. -/
theorem C10_function_key_witness :
    funcname2keysym sample_consts (bytes "f12")
        { type := termkey_type.TERMKEY_TYPE_UNICODE, sym := 0, modifier_mask := 0,
          modifier_set := 0 }
      = (1, { type := termkey_type.TERMKEY_TYPE_FUNCTION, sym := 12
              modifier_mask := 0, modifier_set := 0 }) :=
  C10_function_key sample_consts [49, 50] termkey_type.TERMKEY_TYPE_UNICODE 0
    (by decide) (by decide) (by decide)

/-! ## `register_seq` keeps the registry well-formed -/

theorem take_succ_set (e : ti_keyinfo) : ∀ (l : List ti_keyinfo) (n : Nat), n < l.length →
    (l.set n e).take (n + 1) = l.take n ++ [e] := by
  intro l
  induction l with
  | nil => intro n h; simp at h
  | cons a l ih =>
    intro n h
    cases n with
    | zero => simp
    | succ n =>
      simp only [List.set_cons_succ, List.take_succ_cons, List.cons_append, List.cons.injEq,
        true_and]
      exact ih n (by simpa using h)

/-- What `register_seq` does to the registry: one entry more, at the end, holding the
sequence, its `strlen` and the key; the entries before it stay as they were. -/
theorem registry_register_seq (ti : termkey_ti) (seq : List Nat) (type : termkey_type)
    (sym : Int) (modmask modset : Nat) (h : capacity_ok ti) :
    registry (register_seq ti seq type sym modmask modset)
      = registry ti ++ [{ seq := seq, seqlen := strlen seq,
                          key := { type := type, sym := sym, modifier_mask := modmask,
                                   modifier_set := modset } }] := by
  obtain ⟨h1, h2, h3⟩ := h
  unfold registry register_seq
  by_cases hfull : ti.nseqs = ti.alloced_seqs
  · simp only [hfull, if_true]
    have hre : realloc ti.seqs (ti.alloced_seqs * 2)
        = ti.seqs ++ List.replicate ti.alloced_seqs indeterminate := by
      unfold realloc
      rw [List.take_of_length_le (by omega), h2]
      congr 2
      omega
    rw [hre, take_succ_set _ _ _ (by simp; omega)]
    congr 1
    rw [List.take_append_of_le_length (by omega), List.take_of_length_le (by omega)]
  · simp only [hfull, if_false]
    exact take_succ_set _ _ _ (by omega)

theorem capacity_ok_register_seq (ti : termkey_ti) (seq : List Nat) (type : termkey_type)
    (sym : Int) (modmask modset : Nat) (h : capacity_ok ti) :
    capacity_ok (register_seq ti seq type sym modmask modset) := by
  obtain ⟨h1, h2, h3⟩ := h
  unfold capacity_ok register_seq
  by_cases hfull : ti.nseqs = ti.alloced_seqs
  · simp only [hfull, if_true, List.length_set]
    refine ⟨by omega, ?_, by omega⟩
    unfold realloc
    rw [List.length_append, List.length_take, List.length_replicate]
    omega
  · simp only [hfull, if_false, List.length_set]
    exact ⟨by omega, h2, h3⟩

/-- `register_seq` caches the length of the sequence it registers, so the registry
stays one where every entry holds the length of its own sequence. -/
theorem registry_ok_register_seq (ti : termkey_ti) (seq : List Nat) (type : termkey_type)
    (sym : Int) (modmask modset : Nat) (h : capacity_ok ti) (hreg : registry_ok ti) :
    registry_ok (register_seq ti seq type sym modmask modset) := by
  intro s hs
  rw [registry_register_seq ti seq type sym modmask modset h] at hs
  rcases List.mem_append.mp hs with hs | hs
  · exact hreg s hs
  · rw [List.mem_singleton.mp hs]

theorem capacity_ok_new_driver_alloc : capacity_ok new_driver_alloc := by
  unfold capacity_ok; decide

theorem registry_ok_new_driver_alloc : registry_ok new_driver_alloc := by
  unfold registry_ok; decide

/-! ## The three rules of `funcname2keysym` -/

/-- Rule 1: a table hit. -/
theorem funcname2keysym_of_hit (K : Consts) (n : List Nat) (o : keyinfo) (e : func_entry)
    (h : (funcs K).find? (fun e => decide (strcmp n e.funcname = 0)) = some e) :
    funcname2keysym K n o
      = (1, { type := e.type, sym := e.sym, modifier_mask := e.mods,
              modifier_set := e.mods }) := by
  cases n <;> rw [funcname2keysym, h]

/-- Rule 2: no table hit, and the name starts with `f` and a digit. -/
theorem funcname2keysym_of_f (K : Consts) (n : List Nat) (o : keyinfo)
    (h : (funcs K).find? (fun e => decide (strcmp n e.funcname = 0)) = none)
    (hf : n.headD 0 = 102 ∧ isdigit (n.tail.headD 0) = true) :
    funcname2keysym K n o
      = (1, { type := termkey_type.TERMKEY_TYPE_FUNCTION, sym := atoi n.tail,
              modifier_mask := o.modifier_mask, modifier_set := o.modifier_set }) := by
  cases n <;> rw [funcname2keysym, h] <;> simp only [] <;> rw [if_pos hf]

/-- Rule 3: no table hit, and the name starts with `s`: the outcome hangs on the
recursive call on the rest of the name. -/
theorem funcname2keysym_of_s (K : Consts) (rest : List Nat) (o : keyinfo)
    (h : (funcs K).find? (fun e => decide (strcmp (115 :: rest) e.funcname = 0)) = none) :
    funcname2keysym K (115 :: rest) o
      = if (funcname2keysym K rest o).1 ≠ 0 then
          (1, { type := (funcname2keysym K rest o).2.type
                sym := (funcname2keysym K rest o).2.sym
                modifier_mask :=
                  (funcname2keysym K rest o).2.modifier_mask ||| K.TERMKEY_KEYMOD_SHIFT
                modifier_set :=
                  (funcname2keysym K rest o).2.modifier_set ||| K.TERMKEY_KEYMOD_SHIFT })
        else (0, (funcname2keysym K rest o).2) := by
  rw [funcname2keysym, h]
  simp only [List.headD_cons]
  rw [if_neg (by simp), if_pos trivial]

/-- No rule applies: no table hit, no `f` and digit, no `s` at the start. -/
theorem funcname2keysym_of_other (K : Consts) (n : List Nat) (o : keyinfo)
    (h : (funcs K).find? (fun e => decide (strcmp n e.funcname = 0)) = none)
    (hf : ¬ (n.headD 0 = 102 ∧ isdigit (n.tail.headD 0) = true))
    (hs : n.headD 0 ≠ 115) :
    funcname2keysym K n o = (0, o) := by
  cases n with
  | nil => rw [funcname2keysym, h]; simp only []; rw [if_neg hf]
  | cons c rest =>
    rw [funcname2keysym, h]
    simp only []
    rw [if_neg hf, if_neg (show ¬ c = 115 from hs)]

theorem cons_of_headD_eq (n : List Nat) (c : Nat) (hc : c ≠ 0) (h : n.headD 0 = c) :
    n = c :: n.tail := by
  cases n with
  | nil => exact absurd h.symm hc
  | cons d rest =>
    have hd : d = c := h
    rw [hd]; rfl

/-- A failing call writes none of the four cells. -/
theorem funcname2keysym_fail_cells (K : Consts) (o : keyinfo) : ∀ (n : List Nat),
    (funcname2keysym K n o).1 = 0 → (funcname2keysym K n o).2 = o := by
  intro n
  induction n with
  | nil =>
    intro h
    cases hfind : (funcs K).find? (fun e => decide (strcmp [] e.funcname = 0)) with
    | some e => rw [funcname2keysym_of_hit K _ o e hfind] at h; exact absurd (show (1 : Int) = 0 from h) (by decide)
    | none =>
      rw [funcname2keysym_of_other K [] o hfind (by simp) (by simp)]
  | cons c rest ih =>
    intro h
    cases hfind : (funcs K).find? (fun e => decide (strcmp (c :: rest) e.funcname = 0)) with
    | some e => rw [funcname2keysym_of_hit K _ o e hfind] at h; exact absurd (show (1 : Int) = 0 from h) (by decide)
    | none =>
      by_cases hf : (c :: rest).headD 0 = 102 ∧ isdigit ((c :: rest).tail.headD 0) = true
      · rw [funcname2keysym_of_f K _ o hfind hf] at h; exact absurd (show (1 : Int) = 0 from h) (by decide)
      · by_cases hs : c = 115
        · subst hs
          rw [funcname2keysym_of_s K rest o hfind] at h ⊢
          by_cases hr : (funcname2keysym K rest o).1 ≠ 0
          · rw [if_pos hr] at h; exact absurd (show (1 : Int) = 0 from h) (by decide)
          · rw [if_neg hr]
            exact ih (not_not.mp hr)
        · rw [funcname2keysym_of_other K _ o hfind hf hs]

/-- The returned `int` is 0 or 1. -/
theorem funcname2keysym_zero_or_one (K : Consts) (o : keyinfo) (n : List Nat) :
    (funcname2keysym K n o).1 = 0 ∨ (funcname2keysym K n o).1 = 1 := by
  cases hfind : (funcs K).find? (fun e => decide (strcmp n e.funcname = 0)) with
  | some e => rw [funcname2keysym_of_hit K _ o e hfind]; exact Or.inr rfl
  | none =>
    by_cases hf : n.headD 0 = 102 ∧ isdigit (n.tail.headD 0) = true
    · rw [funcname2keysym_of_f K _ o hfind hf]; exact Or.inr rfl
    · by_cases hs : n.headD 0 = 115
      · have hn := cons_of_headD_eq n 115 (by decide) hs
        rw [hn] at hfind ⊢
        rw [funcname2keysym_of_s K _ o hfind]
        by_cases hr : (funcname2keysym K n.tail o).1 ≠ 0
        · rw [if_pos hr]; exact Or.inr rfl
        · rw [if_neg hr]; exact Or.inl rfl
      · rw [funcname2keysym_of_other K _ o hfind hf hs]; exact Or.inl rfl

/-- A successful call leaves the modifier mask equal to the modifier set when they
were equal before the call. -/
theorem funcname2keysym_mask_eq_set (K : Consts) (o : keyinfo)
    (ho : o.modifier_mask = o.modifier_set) : ∀ (n : List Nat),
    (funcname2keysym K n o).2.modifier_mask = (funcname2keysym K n o).2.modifier_set := by
  intro n
  induction n with
  | nil =>
    cases hfind : (funcs K).find? (fun e => decide (strcmp [] e.funcname = 0)) with
    | some e => rw [funcname2keysym_of_hit K _ o e hfind]
    | none => rw [funcname2keysym_of_other K [] o hfind (by simp) (by simp)]; exact ho
  | cons c rest ih =>
    cases hfind : (funcs K).find? (fun e => decide (strcmp (c :: rest) e.funcname = 0)) with
    | some e => rw [funcname2keysym_of_hit K _ o e hfind]
    | none =>
      by_cases hf : (c :: rest).headD 0 = 102 ∧ isdigit ((c :: rest).tail.headD 0) = true
      · rw [funcname2keysym_of_f K _ o hfind hf]; exact ho
      · by_cases hs : c = 115
        · subst hs
          rw [funcname2keysym_of_s K rest o hfind]
          by_cases hr : (funcname2keysym K rest o).1 ≠ 0
          · rw [if_pos hr]; simp only []; rw [ih]
          · rw [if_neg hr]; exact ih
        · rw [funcname2keysym_of_other K _ o hfind hf hs]; exact ho

/-- The values that the cells `type` and `sym` hold before the call do not matter:
the returned `int` is the same, and on success so are the four cells. -/
theorem funcname2keysym_init_irrel (K : Consts) (t t' : termkey_type) (s s' : Int)
    (m ms : Nat) : ∀ (n : List Nat),
    (funcname2keysym K n { type := t, sym := s, modifier_mask := m, modifier_set := ms }).1
      = (funcname2keysym K n
          { type := t', sym := s', modifier_mask := m, modifier_set := ms }).1 ∧
    ((funcname2keysym K n
        { type := t, sym := s, modifier_mask := m, modifier_set := ms }).1 ≠ 0 →
      (funcname2keysym K n { type := t, sym := s, modifier_mask := m, modifier_set := ms }).2
        = (funcname2keysym K n
            { type := t', sym := s', modifier_mask := m, modifier_set := ms }).2) := by
  intro n
  induction n with
  | nil =>
    cases hfind : (funcs K).find? (fun e => decide (strcmp [] e.funcname = 0)) with
    | some e =>
      rw [funcname2keysym_of_hit K _ _ e hfind, funcname2keysym_of_hit K _ _ e hfind]
      exact ⟨rfl, fun _ => rfl⟩
    | none =>
      rw [funcname2keysym_of_other K [] _ hfind (by simp) (by simp),
        funcname2keysym_of_other K [] _ hfind (by simp) (by simp)]
      exact ⟨rfl, fun h => absurd rfl h⟩
  | cons c rest ih =>
    cases hfind : (funcs K).find? (fun e => decide (strcmp (c :: rest) e.funcname = 0)) with
    | some e =>
      rw [funcname2keysym_of_hit K _ _ e hfind, funcname2keysym_of_hit K _ _ e hfind]
      exact ⟨rfl, fun _ => rfl⟩
    | none =>
      by_cases hf : (c :: rest).headD 0 = 102 ∧ isdigit ((c :: rest).tail.headD 0) = true
      · rw [funcname2keysym_of_f K _ _ hfind hf, funcname2keysym_of_f K _ _ hfind hf]
        exact ⟨rfl, fun _ => rfl⟩
      · by_cases hs : c = 115
        · subst hs
          rw [funcname2keysym_of_s K rest _ hfind, funcname2keysym_of_s K rest _ hfind]
          obtain ⟨ih1, ih2⟩ := ih
          by_cases hr : (funcname2keysym K rest
              { type := t, sym := s, modifier_mask := m, modifier_set := ms }).1 ≠ 0
          · rw [if_pos hr, if_pos (ih1 ▸ hr), ih2 hr]
            exact ⟨rfl, fun _ => rfl⟩
          · rw [if_neg hr, if_neg (ih1 ▸ hr)]
            exact ⟨rfl, fun h => absurd rfl h⟩
        · rw [funcname2keysym_of_other K _ _ hfind hf hs,
            funcname2keysym_of_other K _ _ hfind hf hs]
          exact ⟨rfl, fun h => absurd rfl h⟩

/-! ## C11 -/

theorem cstring_func_names : ∀ m ∈ func_names, cstring m = m := by decide

/-- C11, as stated, fails: `f1abc` is none of the table's names, is not `f` followed by
digits and nothing else, and does not start with `s`, yet `funcname2keysym` maps it, to
function key 1. -/
theorem C11_counterexample :
    bytes "f1abc" ∉ func_names ∧
    ¬ (∀ d ∈ (bytes "f1abc").tail, isdigit d = true) ∧
    (bytes "f1abc").headD 0 ≠ 115 ∧
    funcname2keysym sample_consts (bytes "f1abc") sample_key_out
      = (1, { type := termkey_type.TERMKEY_TYPE_FUNCTION, sym := 1,
              modifier_mask := 0, modifier_set := 0 }) := by
  refine ⟨by decide, by decide, by decide, by decide⟩

/-- C11, amended: `funcname2keysym` returns 0, and writes none of the four cells, for
every name that is none of the 17 names of the table, does not start with `f` and a
digit, and is not `s` followed by a name that maps; `xyz123` is such a name. -/
theorem C11_no_mapping (K : Consts) (n : List Nat) (o : keyinfo)
    (htable : ∀ m ∈ func_names, cstring n ≠ m)
    (hf : ¬ (n.headD 0 = 102 ∧ isdigit (n.tail.headD 0) = true))
    (hs : ¬ (n.headD 0 = 115 ∧ (funcname2keysym K n.tail o).1 ≠ 0)) :
    funcname2keysym K n o = (0, o) ∧
    funcname2keysym K (bytes "xyz123") o = (0, o) := by
  refine ⟨?_, rfl⟩
  have hfind := funcs_find_none K n (fun m hm => by
    rw [cstring_func_names m hm]; exact htable m hm)
  by_cases h115 : n.headD 0 = 115
  · have hn := cons_of_headD_eq n 115 (by decide) h115
    have hr : (funcname2keysym K n.tail o).1 = 0 := by
      by_contra hne
      exact hs ⟨h115, hne⟩
    rw [hn] at hfind ⊢
    rw [funcname2keysym_of_s K _ o hfind]
    simp only [List.tail_cons] at hr ⊢
    rw [if_neg (not_not.mpr hr), funcname2keysym_fail_cells K o _ hr]
  · exact funcname2keysym_of_other K n o hfind hf h115

/-- C11, amended, at work: `key` is no table name, starts with `k`, and is not
mapped. -/
theorem C11_no_mapping_witness :
    funcname2keysym sample_consts (bytes "key") sample_key_out = (0, sample_key_out) :=
  (C11_no_mapping sample_consts (bytes "key") sample_key_out (by decide) (by decide)
    (by decide)).1

/-! ## C12 -/

/-- C12, as stated, fails: `sleft` is mapped neither by the table nor by the
function-key rule, yet `ssleft` is mapped, through two uses of the shift rule, to Left
with Shift; likewise `ssf3` is function key 3 with Shift. -/
theorem C12_counterexample :
    bytes "sleft" ∉ func_names ∧
    (bytes "sleft").headD 0 ≠ 102 ∧
    funcname2keysym sample_consts (bytes "ssleft") sample_key_out
      = (1, { type := termkey_type.TERMKEY_TYPE_KEYSYM, sym := 9,
              modifier_mask := 1, modifier_set := 1 }) ∧
    funcname2keysym sample_consts (bytes "ssf3") sample_key_out
      = (1, { type := termkey_type.TERMKEY_TYPE_FUNCTION, sym := 3,
              modifier_mask := 1, modifier_set := 1 }) := by
  refine ⟨by decide, by decide, by decide, by decide⟩

/-- C12, amended: the mapper strips every leading `s`.  For a name `n` that is mapped, by
whichever rule, a name made of one or more `s` followed by `n` is mapped through the
shift rule to the type and symbol of `n`, with Shift OR-ed into the mask and the set
of `n`. -/
theorem C12_every_leading_s_stripped (K : Consts) (k : Nat) (n : List Nat) (o : keyinfo)
    (h : (funcname2keysym K n o).1 ≠ 0) :
    funcname2keysym K (List.replicate (k + 1) 115 ++ n) o
      = (1, { type := (funcname2keysym K n o).2.type
              sym := (funcname2keysym K n o).2.sym
              modifier_mask :=
                (funcname2keysym K n o).2.modifier_mask ||| K.TERMKEY_KEYMOD_SHIFT
              modifier_set :=
                (funcname2keysym K n o).2.modifier_set ||| K.TERMKEY_KEYMOD_SHIFT }) := by
  induction k with
  | zero => exact funcname2keysym_s_cons K n o h
  | succ k ih =>
    have hcons : List.replicate (k + 1 + 1) 115 ++ n
        = 115 :: (List.replicate (k + 1) 115 ++ n) := rfl
    have hin : (funcname2keysym K (List.replicate (k + 1) 115 ++ n) o).1 ≠ 0 := by
      rw [ih]; exact (by decide : (1 : Int) ≠ 0)
    rw [hcons, funcname2keysym_s_cons K _ o hin, ih]
    simp only [Nat.or_assoc, Nat.or_self]

/-- C12, amended, at work: `up` is mapped, so `sssup` is Up with Shift. -/
theorem C12_every_leading_s_stripped_witness :
    funcname2keysym sample_consts (bytes "sssup") sample_key_out
      = (1, { type := termkey_type.TERMKEY_TYPE_KEYSYM, sym := 7,
              modifier_mask := 1, modifier_set := 1 }) :=
  C12_every_leading_s_stripped sample_consts 2 (bytes "up") sample_key_out (by decide)

/-! ## Lemmas on `new_driver` -/

/-- Within the length of the second argument, `strncmp` answers 0 exactly when the first
`n` bytes of the two arguments are the same. -/
theorem strncmp_eq_zero_iff_right (n : Nat) : ∀ (s b : List Nat), n ≤ strlen b →
    (strncmp s b n = 0 ↔ s.take n = b.take n) := by
  induction n with
  | zero => intro s b _; simp [strncmp]
  | succ n ih =>
    intro s b hn
    cases b with
    | nil => simp [strlen] at hn
    | cons d b =>
      have hd : d ≠ 0 := by
        intro h; simp [strlen, h] at hn
      have hn' : n ≤ strlen b := by
        simp only [strlen, hd, if_false] at hn; omega
      cases s with
      | nil =>
        simp only [strncmp, List.headD_cons, List.headD_nil, List.take_nil]
        have h0 : (0 : Nat) ≠ d := fun h => hd h.symm
        simp [h0]
        omega
      | cons c s =>
        simp only [strncmp, List.headD_cons, List.tail_cons, List.take_succ_cons]
        by_cases hcd : c = d
        · subst hcd
          simp only [ne_eq, not_true_eq_false, if_false, hd, List.cons.injEq, true_and]
          exact ih s b hn'
        · have : (c : Int) - (d : Int) ≠ 0 := by omega
          simp [hcd, this]

/-- The test `strncmp(name, "key_", 4) == 0` of `new_driver` holds exactly when the name
starts with `key_`. -/
theorem strncmp_key_iff (name : List Nat) :
    strncmp name (bytes "key_") 4 = 0 ↔ bytes "key_" <+: name := by
  rw [strncmp_eq_zero_iff_right 4 name (bytes "key_") (by decide)]
  have h4 : (bytes "key_").take 4 = bytes "key_" := by decide
  have hl : (bytes "key_").length = 4 := by decide
  rw [h4, List.prefix_iff_eq_take, hl]
  exact eq_comm

theorem length_registry (ti : termkey_ti) (h : capacity_ok ti) :
    (registry ti).length = ti.nseqs := by
  obtain ⟨h1, h2, _⟩ := h
  unfold registry
  rw [List.length_take]
  omega

/-- What the loop of `new_driver` adds to the registry: the entries of the capabilities
it visits, one after the other. -/
theorem new_driver_loop_registry (K : Consts) (t0 : termkey_type) (s0 : Int) :
    ∀ (db : List (List Nat × tigetstr_result)) (ti : termkey_ti), capacity_ok ti →
      registry (new_driver_loop K t0 s0 db ti)
        = registry ti ++ db.filterMap (loaded_entry K t0 s0) ∧
      capacity_ok (new_driver_loop K t0 s0 db ti) := by
  intro db
  induction db with
  | nil => intro ti h; simp [new_driver_loop, h]
  | cons c rest ih =>
    intro ti h
    obtain ⟨name, value⟩ := c
    cases value with
    | null =>
      have hnone : loaded_entry K t0 s0 (name, tigetstr_result.null) = none := rfl
      rw [new_driver_loop, List.filterMap_cons_none hnone]
      by_cases hkey : strncmp name (bytes "key_") 4 = 0
      · rw [if_neg (not_not.mpr hkey)]; exact ih ti h
      · rw [if_pos hkey]; exact ih ti h
    | minus_one =>
      have hnone : loaded_entry K t0 s0 (name, tigetstr_result.minus_one) = none := rfl
      rw [new_driver_loop, List.filterMap_cons_none hnone]
      by_cases hkey : strncmp name (bytes "key_") 4 = 0
      · rw [if_neg (not_not.mpr hkey)]; exact ih ti h
      · rw [if_pos hkey]; exact ih ti h
    | string v =>
      rw [new_driver_loop]
      by_cases hkey : strncmp name (bytes "key_") 4 = 0
      · have hpre := (strncmp_key_iff name).mp hkey
        rw [if_neg (not_not.mpr hkey)]
        by_cases hmap : (funcname2keysym K (name.drop 4)
            { type := t0, sym := s0, modifier_mask := 0, modifier_set := 0 }).1 = 0
        · have hnone : loaded_entry K t0 s0 (name, tigetstr_result.string v) = none := by
            simp only [loaded_entry]
            rw [if_neg (fun hc => hc.2 hmap)]
          rw [if_pos hmap, List.filterMap_cons_none hnone]
          exact ih ti h
        · have hsome : loaded_entry K t0 s0 (name, tigetstr_result.string v)
              = some { seq := v, seqlen := strlen v,
                       key := (funcname2keysym K (name.drop 4)
                         { type := t0, sym := s0, modifier_mask := 0,
                           modifier_set := 0 }).2 } := by
            simp only [loaded_entry]
            rw [if_pos ⟨hpre, hmap⟩]
          rw [if_neg hmap, List.filterMap_cons_some hsome]
          obtain ⟨ih1, ih2⟩ := ih _ (capacity_ok_register_seq ti v _ _ _ _ h)
          refine ⟨?_, ih2⟩
          rw [ih1, registry_register_seq ti v _ _ _ _ h, List.append_assoc]
          rfl
      · have hnone : loaded_entry K t0 s0 (name, tigetstr_result.string v) = none := by
          simp only [loaded_entry]
          rw [if_neg (fun hc => hkey ((strncmp_key_iff name).mpr hc.1))]
        rw [if_pos hkey, List.filterMap_cons_none hnone]
        exact ih ti h

/-- The registry that `new_driver` builds. -/
theorem registry_new_driver (K : Consts) (t0 : termkey_type) (s0 : Int)
    (db : List (List Nat × tigetstr_result)) :
    registry (new_driver K t0 s0 db) = db.filterMap (loaded_entry K t0 s0) := by
  unfold new_driver
  rw [(new_driver_loop_registry K t0 s0 db _ capacity_ok_new_driver_alloc).1]
  rfl

/-- The values that `type` and `sym` hold before `funcname2keysym` is called do not show
in the entry of a capability. -/
theorem loaded_entry_init_irrel (K : Consts) (t0 t1 : termkey_type) (s0 s1 : Int)
    (c : List Nat × tigetstr_result) :
    loaded_entry K t1 s1 c = loaded_entry K t0 s0 c := by
  obtain ⟨name, value⟩ := c
  cases value with
  | null => rfl
  | minus_one => rfl
  | string v =>
    simp only [loaded_entry]
    obtain ⟨h1, h2⟩ := funcname2keysym_init_irrel K t1 t0 s1 s0 0 0 (name.drop 4)
    by_cases hmap : (funcname2keysym K (name.drop 4)
        { type := t1, sym := s1, modifier_mask := 0, modifier_set := 0 }).1 ≠ 0
    · by_cases hpre : bytes "key_" <+: name
      · rw [if_pos ⟨hpre, hmap⟩, if_pos ⟨hpre, h1 ▸ hmap⟩, h2 hmap]
      · rw [if_neg (fun hc => hpre hc.1), if_neg (fun hc => hpre hc.1)]
    · rw [if_neg (fun hc => hmap hc.2), if_neg (fun hc => hmap (h1 ▸ hc.2))]

/-! ## C13 -/

theorem modifier_subset_of_eq (set mask : Nat) (h : mask = set) : modifier_subset set mask := by
  unfold modifier_subset
  rw [h, Nat.and_self]

theorem mem_loaded_entries (K : Consts) (t0 : termkey_type) (s0 : Int)
    (db : List (List Nat × tigetstr_result)) (e : ti_keyinfo)
    (he : e ∈ db.filterMap (loaded_entry K t0 s0)) :
    ∃ name v, (name, tigetstr_result.string v) ∈ db ∧ e.seq = v ∧ e.seqlen = strlen v ∧
      e.key = (funcname2keysym K (name.drop 4)
        { type := t0, sym := s0, modifier_mask := 0, modifier_set := 0 }).2 := by
  rw [List.mem_filterMap] at he
  obtain ⟨c, hc, hle⟩ := he
  obtain ⟨name, value⟩ := c
  cases value with
  | null => exact absurd hle (by simp [loaded_entry])
  | minus_one => exact absurd hle (by simp [loaded_entry])
  | string v =>
    simp only [loaded_entry] at hle
    split at hle
    · have := Option.some.inj hle
      subst this
      exact ⟨name, v, hc, rfl, rfl, rfl⟩
    · exact absurd hle (by simp)

/-- C13: the modifier set is a subset of the modifier mask for every result that
`funcname2keysym` produces when called with mask and set 0, hence for every entry of a
registry built by `new_driver`; and the entries that a registry holds before
`register_seq` is called are the same after the call, so the invariant is kept for
them. -/
theorem C13_modifier_set_within_mask (K : Consts) (t0 : termkey_type) (s0 : Int)
    (db : List (List Nat × tigetstr_result)) (ti : termkey_ti) (seq : List Nat)
    (type : termkey_type) (sym : Int) (modmask modset : Nat) (hcap : capacity_ok ti) :
    (∀ (n : List Nat) (t : termkey_type) (s : Int),
      modifier_subset
        (funcname2keysym K n
          { type := t, sym := s, modifier_mask := 0, modifier_set := 0 }).2.modifier_set
        (funcname2keysym K n
          { type := t, sym := s, modifier_mask := 0, modifier_set := 0 }).2.modifier_mask) ∧
    (∀ e ∈ registry (new_driver K t0 s0 db),
      modifier_subset e.key.modifier_set e.key.modifier_mask) ∧
    ((registry (register_seq ti seq type sym modmask modset)).take ti.nseqs = registry ti ∧
      ((∀ e ∈ registry ti, modifier_subset e.key.modifier_set e.key.modifier_mask) →
        ∀ e ∈ (registry (register_seq ti seq type sym modmask modset)).take ti.nseqs,
          modifier_subset e.key.modifier_set e.key.modifier_mask)) := by
  have hkeep : (registry (register_seq ti seq type sym modmask modset)).take ti.nseqs
      = registry ti := by
    rw [registry_register_seq ti seq type sym modmask modset hcap]
    exact List.take_left' (length_registry ti hcap)
  refine ⟨fun n t s => ?_, fun e he => ?_, hkeep, fun h e he => ?_⟩
  · exact modifier_subset_of_eq _ _ (funcname2keysym_mask_eq_set K _ rfl n)
  · rw [registry_new_driver] at he
    obtain ⟨name, v, _, _, _, hk⟩ := mem_loaded_entries K t0 s0 db e he
    rw [hk]
    exact modifier_subset_of_eq _ _ (funcname2keysym_mask_eq_set K _ rfl _)
  · rw [hkeep] at he
    exact h e he

/-- C13 at work: the registry built from the sample database, and `register_seq` on the
registry of spec 8.6. -/
theorem C13_modifier_set_within_mask_witness :
    (∀ e ∈ registry (new_driver sample_consts termkey_type.TERMKEY_TYPE_UNICODE 0 sample_db),
      modifier_subset e.key.modifier_set e.key.modifier_mask) ∧
    (registry (register_seq (cursor_registry sample_consts) [27, 91, 90]
        termkey_type.TERMKEY_TYPE_KEYSYM 2 1 1)).take (cursor_registry sample_consts).nseqs
      = registry (cursor_registry sample_consts) :=
  ⟨(C13_modifier_set_within_mask sample_consts termkey_type.TERMKEY_TYPE_UNICODE 0 sample_db
      (cursor_registry sample_consts) [27, 91, 90] termkey_type.TERMKEY_TYPE_KEYSYM 2 1 1
      (by unfold capacity_ok; decide)).2.1,
   (C13_modifier_set_within_mask sample_consts termkey_type.TERMKEY_TYPE_UNICODE 0 sample_db
      (cursor_registry sample_consts) [27, 91, 90] termkey_type.TERMKEY_TYPE_KEYSYM 2 1 1
      (by unfold capacity_ok; decide)).2.2.1⟩

/-! ## C14 -/

/-- C15: the registry built by `new_driver` is exactly, in the order of the database,
the list of the entries (value, `strlen` of the value, key that `funcname2keysym` gives
for the name without `key_`) of the capabilities whose long name starts with `key_`,
whose value is defined and whose stripped name maps; what `type` and `sym` hold before
the call does not show in it; and a capability with the unmapped name `key_xyz123` adds
no entry and does not keep the capabilities after it from being registered. -/
theorem C15_new_driver_registry (K : Consts) (t0 : termkey_type) (s0 : Int)
    (db : List (List Nat × tigetstr_result)) :
    registry (new_driver K t0 s0 db) = db.filterMap (loaded_entry K t0 s0) ∧
    (new_driver K t0 s0 db).nseqs = (db.filterMap (loaded_entry K t0 s0)).length ∧
    (∀ (t1 : termkey_type) (s1 : Int),
      registry (new_driver K t1 s1 db) = registry (new_driver K t0 s0 db)) ∧
    (∀ (pre post : List (List Nat × tigetstr_result)) (v : tigetstr_result),
      registry (new_driver K t0 s0 (pre ++ (bytes "key_xyz123", v) :: post))
        = registry (new_driver K t0 s0 pre)
          ++ post.filterMap (loaded_entry K t0 s0)) := by
  refine ⟨registry_new_driver K t0 s0 db, ?_, fun t1 s1 => ?_, fun pre post v => ?_⟩
  · rw [← registry_new_driver K t0 s0 db]
    unfold new_driver
    exact (length_registry _
      (new_driver_loop_registry K t0 s0 db _ capacity_ok_new_driver_alloc).2).symm
  · rw [registry_new_driver, registry_new_driver]
    exact List.filterMap_congr (fun c _ => loaded_entry_init_irrel K t0 t1 s0 s1 c)
  · simp only [registry_new_driver, List.filterMap_append]
    have h1 : loaded_entry K t0 s0 (bytes "key_xyz123", v) = none := by
      cases v with
      | null => rfl
      | minus_one => rfl
      | string value => rfl
    rw [List.filterMap_cons_none h1]

/-! ## C16 -/

/-- C16: `register_seq` appends.  For a driver state with `n` registered entries in an
array of `alloced_seqs` slots, after the call `nseqs` is `n + 1`, slot `n` holds the
given sequence, its `strlen`, and the given type, sym, modifier mask and modifier set,
and the slots 0 to `n - 1` are unchanged; this also holds when `n` equals the capacity,
in which case `alloced_seqs` is doubled. -/
theorem C16_register_seq_appends (ti : termkey_ti) (seq : List Nat) (type : termkey_type)
    (sym : Int) (modmask modset : Nat) (hcap : capacity_ok ti) :
    (register_seq ti seq type sym modmask modset).nseqs = ti.nseqs + 1 ∧
    (register_seq ti seq type sym modmask modset).seqs[ti.nseqs]?
      = some { seq := seq, seqlen := strlen seq,
               key := { type := type, sym := sym, modifier_mask := modmask,
                        modifier_set := modset } } ∧
    (∀ (j : Nat), j < ti.nseqs →
      (register_seq ti seq type sym modmask modset).seqs[j]? = ti.seqs[j]?) ∧
    registry (register_seq ti seq type sym modmask modset)
      = registry ti ++ [{ seq := seq, seqlen := strlen seq,
                          key := { type := type, sym := sym, modifier_mask := modmask,
                                   modifier_set := modset } }] ∧
    (ti.nseqs = ti.alloced_seqs →
      (register_seq ti seq type sym modmask modset).alloced_seqs = ti.alloced_seqs * 2) ∧
    (ti.nseqs ≠ ti.alloced_seqs →
      (register_seq ti seq type sym modmask modset).alloced_seqs = ti.alloced_seqs) ∧
    capacity_ok (register_seq ti seq type sym modmask modset) := by
  have hreg := registry_register_seq ti seq type sym modmask modset hcap
  have hlen := length_registry ti hcap
  have hn : (register_seq ti seq type sym modmask modset).nseqs = ti.nseqs + 1 := by
    unfold register_seq
    by_cases hfull : ti.nseqs = ti.alloced_seqs <;> simp [hfull]
  have hslot : ∀ (j : Nat), j < ti.nseqs + 1 →
      (register_seq ti seq type sym modmask modset).seqs[j]?
        = (registry ti ++ [{ seq := seq, seqlen := strlen seq,
                             key := { type := type, sym := sym, modifier_mask := modmask,
                                      modifier_set := modset } }])[j]? := by
    intro j hj
    rw [← hreg]
    unfold registry
    rw [hn, List.getElem?_take_of_lt hj]
  refine ⟨hn, ?_, fun j hj => ?_, hreg, fun hfull => ?_, fun hfull => ?_,
    capacity_ok_register_seq ti seq type sym modmask modset hcap⟩
  · rw [hslot _ (Nat.lt_succ_self _), List.getElem?_append_right (by omega), hlen]
    simp
  · rw [hslot j (by omega), List.getElem?_append_left (by omega)]
    unfold registry
    exact List.getElem?_take_of_lt hj
  · unfold register_seq; simp [hfull]
  · unfold register_seq; simp [hfull]

/-- C16 at work on a full array of one slot: the entry is appended and the capacity
doubled. -/
theorem C16_register_seq_appends_witness :
    register_seq (full_registry sample_consts) [27, 79, 66]
        termkey_type.TERMKEY_TYPE_KEYSYM 8 0 0
      = { nseqs := 2, alloced_seqs := 2,
          seqs := [{ seq := [27, 79, 65], seqlen := 3,
                     key := { type := termkey_type.TERMKEY_TYPE_KEYSYM, sym := 7,
                              modifier_mask := 0, modifier_set := 0 } },
                   { seq := [27, 79, 66], seqlen := 3,
                     key := { type := termkey_type.TERMKEY_TYPE_KEYSYM, sym := 8,
                              modifier_mask := 0, modifier_set := 0 } }] } ∧
    capacity_ok (register_seq (full_registry sample_consts) [27, 79, 66]
        termkey_type.TERMKEY_TYPE_KEYSYM 8 0 0) :=
  ⟨by decide,
   (C16_register_seq_appends (full_registry sample_consts) [27, 79, 66]
      termkey_type.TERMKEY_TYPE_KEYSYM 8 0 0 (by unfold capacity_ok; decide)).2.2.2.2.2.2⟩

/-- C15 at work on the sample database: `key_up`, `key_sleft` and `key_f12` are
registered, in that order; `cursor_home`, `key_xyz123` and the absent `key_f3` are
not. -/
theorem C15_new_driver_registry_witness :
    registry (new_driver sample_consts termkey_type.TERMKEY_TYPE_UNICODE 0 sample_db)
      = [ { seq := [27, 79, 65], seqlen := 3,
            key := { type := termkey_type.TERMKEY_TYPE_KEYSYM, sym := 7,
                     modifier_mask := 0, modifier_set := 0 } },
          { seq := [27, 91, 49, 59, 50, 68], seqlen := 6,
            key := { type := termkey_type.TERMKEY_TYPE_KEYSYM, sym := 9,
                     modifier_mask := 1, modifier_set := 1 } },
          { seq := [27, 91, 50, 52, 126], seqlen := 5,
            key := { type := termkey_type.TERMKEY_TYPE_FUNCTION, sym := 12,
                     modifier_mask := 0, modifier_set := 0 } } ] :=
  (C15_new_driver_registry sample_consts termkey_type.TERMKEY_TYPE_UNICODE 0 sample_db).1.trans
    (by decide)

/-! ## What the loop of `getkey` can return -/

theorem loop_step_filter (char_signed : Bool) (M : Methods) (tk : termkey_t)
    (key : termkey_key) (force : Int) (b0 : Nat) (a : ti_keyinfo) (R : List ti_keyinfo)
    (h1 : char_value char_signed (a.seq.headD 0) ≠ (b0 : Int)) :
    getkey_loop char_signed M tk key force b0 (a :: R)
      = getkey_loop char_signed M tk key force b0 R := by
  rw [getkey_loop, if_pos h1]

theorem loop_step_full (char_signed : Bool) (M : Methods) (tk : termkey_t)
    (key : termkey_key) (force : Int) (b0 : Nat) (a : ti_keyinfo) (R : List ti_keyinfo)
    (h1 : ¬ char_value char_signed (a.seq.headD 0) ≠ (b0 : Int))
    (h2 : tk.buffcount ≥ a.seqlen)
    (h3 : strncmp a.seq (tk.buffer.drop tk.buffstart) a.seqlen = 0) :
    getkey_loop char_signed M tk key force b0 (a :: R)
      = some (matched M tk a a.seqlen) := by
  rw [getkey_loop, if_neg h1, if_pos h2, if_pos h3]; rfl

theorem loop_step_full_fail (char_signed : Bool) (M : Methods) (tk : termkey_t)
    (key : termkey_key) (force : Int) (b0 : Nat) (a : ti_keyinfo) (R : List ti_keyinfo)
    (h1 : ¬ char_value char_signed (a.seq.headD 0) ≠ (b0 : Int))
    (h2 : tk.buffcount ≥ a.seqlen)
    (h3 : ¬ strncmp a.seq (tk.buffer.drop tk.buffstart) a.seqlen = 0) :
    getkey_loop char_signed M tk key force b0 (a :: R)
      = getkey_loop char_signed M tk key force b0 R := by
  rw [getkey_loop, if_neg h1, if_pos h2, if_neg h3]

theorem loop_step_again (char_signed : Bool) (M : Methods) (tk : termkey_t)
    (key : termkey_key) (force : Int) (b0 : Nat) (a : ti_keyinfo) (R : List ti_keyinfo)
    (h1 : ¬ char_value char_signed (a.seq.headD 0) ≠ (b0 : Int))
    (h2 : ¬ tk.buffcount ≥ a.seqlen) (h4 : force = 0)
    (h5 : strncmp a.seq (tk.buffer.drop tk.buffstart) tk.buffcount = 0) :
    getkey_loop char_signed M tk key force b0 (a :: R)
      = some (need_more_input tk key) := by
  rw [getkey_loop, if_neg h1, if_neg h2, if_pos h4, if_pos h5]; rfl

theorem loop_step_again_fail (char_signed : Bool) (M : Methods) (tk : termkey_t)
    (key : termkey_key) (force : Int) (b0 : Nat) (a : ti_keyinfo) (R : List ti_keyinfo)
    (h1 : ¬ char_value char_signed (a.seq.headD 0) ≠ (b0 : Int))
    (h2 : ¬ tk.buffcount ≥ a.seqlen) (h4 : force = 0)
    (h5 : ¬ strncmp a.seq (tk.buffer.drop tk.buffstart) tk.buffcount = 0) :
    getkey_loop char_signed M tk key force b0 (a :: R)
      = getkey_loop char_signed M tk key force b0 R := by
  rw [getkey_loop, if_neg h1, if_neg h2, if_pos h4, if_neg h5]

theorem loop_step_forced (char_signed : Bool) (M : Methods) (tk : termkey_t)
    (key : termkey_key) (force : Int) (b0 : Nat) (a : ti_keyinfo) (R : List ti_keyinfo)
    (h1 : ¬ char_value char_signed (a.seq.headD 0) ≠ (b0 : Int))
    (h2 : ¬ tk.buffcount ≥ a.seqlen) (h4 : force ≠ 0) :
    getkey_loop char_signed M tk key force b0 (a :: R)
      = getkey_loop char_signed M tk key force b0 R := by
  rw [getkey_loop, if_neg h1, if_neg h2, if_neg h4]

/-- One step of the loop, on the entry `a`: it returns the key of `a` (whatever `force`
is), or it asks for more input (`force` being off), or it goes on with the entries
after `a`. -/
theorem loop_step_cases (char_signed : Bool) (M : Methods) (tk : termkey_t)
    (key : termkey_key) (force : Int) (b0 : Nat) (a : ti_keyinfo) :
    (tk.buffcount ≥ a.seqlen ∧
      strncmp a.seq (tk.buffer.drop tk.buffstart) a.seqlen = 0 ∧
      ∀ (f : Int) (R : List ti_keyinfo),
        getkey_loop char_signed M tk key f b0 (a :: R) = some (matched M tk a a.seqlen)) ∨
    (force = 0 ∧
      (∀ R : List ti_keyinfo,
        getkey_loop char_signed M tk key force b0 (a :: R) = some (need_more_input tk key)) ∧
      ∀ (f : Int) (R : List ti_keyinfo), f ≠ 0 →
        getkey_loop char_signed M tk key f b0 (a :: R)
          = getkey_loop char_signed M tk key f b0 R) ∨
    ((∀ R : List ti_keyinfo,
        getkey_loop char_signed M tk key force b0 (a :: R)
          = getkey_loop char_signed M tk key force b0 R) ∧
      (∀ (f : Int) (R : List ti_keyinfo), f ≠ 0 →
        getkey_loop char_signed M tk key f b0 (a :: R)
          = getkey_loop char_signed M tk key f b0 R) ∧
      ∀ R : List ti_keyinfo,
        getkey_loop char_signed M tk key 0 b0 (a :: R)
          = getkey_loop char_signed M tk key 0 b0 R ∨
        getkey_loop char_signed M tk key 0 b0 (a :: R) = some (need_more_input tk key)) := by
  by_cases h1 : char_value char_signed (a.seq.headD 0) ≠ (b0 : Int)
  · exact Or.inr (Or.inr ⟨fun R => loop_step_filter _ _ _ _ _ _ _ R h1,
      fun f R _ => loop_step_filter _ _ _ _ _ _ _ R h1,
      fun R => Or.inl (loop_step_filter _ _ _ _ _ _ _ R h1)⟩)
  · by_cases h2 : tk.buffcount ≥ a.seqlen
    · by_cases h3 : strncmp a.seq (tk.buffer.drop tk.buffstart) a.seqlen = 0
      · exact Or.inl ⟨h2, h3, fun f R => loop_step_full _ _ _ _ _ _ _ R h1 h2 h3⟩
      · exact Or.inr (Or.inr ⟨fun R => loop_step_full_fail _ _ _ _ _ _ _ R h1 h2 h3,
          fun f R _ => loop_step_full_fail _ _ _ _ _ _ _ R h1 h2 h3,
          fun R => Or.inl (loop_step_full_fail _ _ _ _ _ _ _ R h1 h2 h3)⟩)
    · by_cases h5 : strncmp a.seq (tk.buffer.drop tk.buffstart) tk.buffcount = 0
      · by_cases h4 : force = 0
        · exact Or.inr (Or.inl ⟨h4, fun R => loop_step_again _ _ _ _ _ _ _ R h1 h2 h4 h5,
            fun f R hf => loop_step_forced _ _ _ _ _ _ _ R h1 h2 hf⟩)
        · exact Or.inr (Or.inr ⟨fun R => loop_step_forced _ _ _ _ _ _ _ R h1 h2 h4,
            fun f R hf => loop_step_forced _ _ _ _ _ _ _ R h1 h2 hf,
            fun R => Or.inr (loop_step_again _ _ _ _ _ _ _ R h1 h2 rfl h5)⟩)
      · refine Or.inr (Or.inr ⟨fun R => ?_,
          fun f R hf => loop_step_forced _ _ _ _ _ _ _ R h1 h2 hf,
          fun R => Or.inl (loop_step_again_fail _ _ _ _ _ _ _ R h1 h2 rfl h5)⟩)
        by_cases h4 : force = 0
        · exact loop_step_again_fail _ _ _ _ _ _ _ R h1 h2 h4 h5
        · exact loop_step_forced _ _ _ _ _ _ _ R h1 h2 h4

/-- Whatever the loop returns is the key of an entry it visited, with that entry's
`seqlen` eaten, or the request for more input. -/
theorem getkey_loop_some (char_signed : Bool) (M : Methods) (tk : termkey_t)
    (key : termkey_key) (force : Int) (b0 : Nat) (o : Outcome) :
    ∀ (R : List ti_keyinfo), getkey_loop char_signed M tk key force b0 R = some o →
      (∃ s ∈ R, o = matched M tk s s.seqlen ∧ tk.buffcount ≥ s.seqlen ∧
        strncmp s.seq (tk.buffer.drop tk.buffstart) s.seqlen = 0) ∨
      (o = need_more_input tk key ∧ force = 0) := by
  intro R
  induction R with
  | nil => intro h; simp [getkey_loop] at h
  | cons a R ih =>
    intro h
    rcases loop_step_cases char_signed M tk key force b0 a with
      ⟨h2, h3, hk⟩ | ⟨h4, hag, _⟩ | ⟨hgo, _⟩
    · rw [hk] at h
      exact Or.inl ⟨a, List.mem_cons_self a R, (Option.some.inj h).symm, h2, h3⟩
    · rw [hag] at h
      exact Or.inr ⟨(Option.some.inj h).symm, h4⟩
    · rw [hgo] at h
      rcases ih h with ⟨s, hs, hrest⟩ | hag
      · exact Or.inl ⟨s, List.mem_cons_of_mem a hs, hrest⟩
      · exact Or.inr hag

/-- The loop over a list that starts with entries on which it does not return. -/
theorem getkey_loop_append (char_signed : Bool) (M : Methods) (tk : termkey_t)
    (key : termkey_key) (force : Int) (b0 : Nat) :
    ∀ (R1 R2 : List ti_keyinfo), getkey_loop char_signed M tk key force b0 R1 = none →
      getkey_loop char_signed M tk key force b0 (R1 ++ R2)
        = getkey_loop char_signed M tk key force b0 R2 := by
  intro R1
  induction R1 with
  | nil => intro R2 _; rfl
  | cons a R1 ih =>
    intro R2 h
    rw [List.cons_append]
    rcases loop_step_cases char_signed M tk key force b0 a with
      ⟨_, _, hk⟩ | ⟨_, hag, _⟩ | ⟨hgo, _⟩
    · rw [hk] at h; exact absurd h (by simp)
    · rw [hag] at h; exact absurd h (by simp)
    · rw [hgo] at h ⊢
      exact ih R2 h

/-- The loop returns at its first entry if it returns on that entry alone. -/
theorem getkey_loop_cons_of_single (char_signed : Bool) (M : Methods) (tk : termkey_t)
    (key : termkey_key) (force : Int) (b0 : Nat) (s : ti_keyinfo) (R : List ti_keyinfo)
    (o : Outcome) (h : getkey_loop char_signed M tk key force b0 [s] = some o) :
    getkey_loop char_signed M tk key force b0 (s :: R) = some o := by
  rcases loop_step_cases char_signed M tk key force b0 s with
    ⟨_, _, hk⟩ | ⟨_, hag, _⟩ | ⟨hgo, _⟩
  · rw [hk] at h ⊢; exact h
  · rw [hag] at h ⊢; exact h
  · rw [hgo] at h; exact absurd h (by simp [getkey_loop])

/-- Turning `force` on changes nothing for a run of entries on which the loop with
`force` off does not return. -/
theorem getkey_loop_none_forced (char_signed : Bool) (M : Methods) (tk : termkey_t)
    (key : termkey_key) (force : Int) (b0 : Nat) :
    ∀ (R : List ti_keyinfo), getkey_loop char_signed M tk key 0 b0 R = none →
      getkey_loop char_signed M tk key force b0 R = none := by
  intro R
  induction R with
  | nil => intro _; rfl
  | cons a R ih =>
    intro h
    by_cases hf : force = 0
    · rw [hf]; exact h
    · rcases loop_step_cases char_signed M tk key 0 b0 a with
        ⟨_, _, hk⟩ | ⟨_, hag, _⟩ | ⟨hgo, hgof, _⟩
      · rw [hk] at h; exact absurd h (by simp)
      · rw [hag] at h; exact absurd h (by simp)
      · rw [hgo] at h
        rw [hgof force R hf]
        exact ih h

/-- A key returned on an entry with `force` off is returned on it whatever `force`
is, and it is the key of that entry with its `seqlen` eaten. -/
theorem getkey_loop_single_forced (char_signed : Bool) (M : Methods) (tk : termkey_t)
    (key : termkey_key) (force : Int) (b0 : Nat) (s : ti_keyinfo) (o : Outcome)
    (h : getkey_loop char_signed M tk key 0 b0 [s] = some o)
    (hkey : o.result = termkey_result.TERMKEY_RES_KEY) :
    getkey_loop char_signed M tk key force b0 [s] = some o ∧ o = matched M tk s s.seqlen := by
  rcases loop_step_cases char_signed M tk key 0 b0 s with
    ⟨_, _, hk⟩ | ⟨_, hag, _⟩ | ⟨hgo, _⟩
  · rw [hk] at h
    rw [hk]
    exact ⟨h, (Option.some.inj h).symm⟩
  · rw [hag] at h
    rw [← Option.some.inj h] at hkey
    exact absurd (show termkey_result.TERMKEY_RES_AGAIN = termkey_result.TERMKEY_RES_KEY
      from hkey) (by decide)
  · rw [hgo] at h; exact absurd h (by simp [getkey_loop])

/-- Where the loop with `force` on runs to its end, the loop with `force` off runs to
its end too or asks for more input. -/
theorem getkey_loop_unforced (char_signed : Bool) (M : Methods) (tk : termkey_t)
    (key : termkey_key) (force : Int) (b0 : Nat) (hforce : force ≠ 0) :
    ∀ (R : List ti_keyinfo), getkey_loop char_signed M tk key force b0 R = none →
      getkey_loop char_signed M tk key 0 b0 R = none ∨
      getkey_loop char_signed M tk key 0 b0 R = some (need_more_input tk key) := by
  intro R
  induction R with
  | nil => intro _; exact Or.inl rfl
  | cons a R ih =>
    intro h
    rcases loop_step_cases char_signed M tk key force b0 a with
      ⟨_, _, hk⟩ | ⟨h4, _, _⟩ | ⟨hgo, _, h0⟩
    · rw [hk] at h; exact absurd h (by simp)
    · exact absurd h4 hforce
    · rw [hgo] at h
      rcases h0 R with h0 | h0
      · rw [h0]; exact ih h
      · exact Or.inr h0

/-- With bytes in the buffer, what the loop returns is what `getkey` returns. -/
theorem getkey_of_loop_some (char_signed : Bool) (M : Methods) (tk : termkey_t)
    (key : termkey_key) (force : Int) (o : Outcome) (hne : tk.buffcount ≠ 0)
    (hloop : getkey_loop char_signed M tk key force (CHARAT tk 0)
      (registry tk.driver_info) = some o) :
    getkey char_signed M tk key force = o := by
  unfold registry at hloop
  rw [getkey, if_neg hne, hloop]

/-- With bytes in the buffer, `getkey` hands over to `getkey_simple` when the loop runs
to its end. -/
theorem getkey_of_loop_none (char_signed : Bool) (M : Methods) (tk : termkey_t)
    (key : termkey_key) (force : Int) (hne : tk.buffcount ≠ 0)
    (hloop : getkey_loop char_signed M tk key force (CHARAT tk 0)
      (registry tk.driver_info) = none) :
    getkey char_signed M tk key force = no_match M tk key := by
  unfold registry at hloop
  rw [getkey, if_neg hne, hloop]
  rfl

/-! ## C17 -/

/-- C17: soundness of a match.  For a registry whose sequences are all non-empty, a
non-empty buffer and any `force`: if the registry scan of `getkey` returns
`TERMKEY_RES_KEY`, then `eat_bytes` was called exactly once, with some `n` such that
`1 ≤ n ≤ buffcount`, some registry entry has `seqlen` `n` and a sequence equal to the
first `n` bytes of the buffer, and the reported type, sym and modifiers are that
entry's type, sym and `modifier_set`. -/
theorem C17_match_is_sound (char_signed : Bool) (M : Methods) (tk : termkey_t)
    (key : termkey_key) (force : Int) (o : Outcome)
    (hreg : registry_ok tk.driver_info) (hne : tk.buffcount ≠ 0)
    (hnonempty : ∀ e ∈ registry tk.driver_info, cstring e.seq ≠ [])
    (hloop : getkey_loop char_signed M tk key force (CHARAT tk 0)
      (registry tk.driver_info) = some o)
    (hkey : o.result = termkey_result.TERMKEY_RES_KEY) :
    getkey char_signed M tk key force = o ∧
    ∃ s ∈ registry tk.driver_info,
      1 ≤ s.seqlen ∧ s.seqlen ≤ tk.buffcount ∧
      o.calls = [Call.eat_bytes s.seqlen] ∧
      o.tk = M.eat_bytes tk s.seqlen ∧
      cstring s.seq = (buffered tk).take s.seqlen ∧
      o.key = { type := s.key.type, code_sym := s.key.sym,
                modifiers := s.key.modifier_set } := by
  refine ⟨getkey_of_loop_some char_signed M tk key force o hne hloop, ?_⟩
  rcases getkey_loop_some char_signed M tk key force _ o _ hloop with
    ⟨s, hs, ho, h2, h3⟩ | ⟨ho, _⟩
  · have hlen := hreg s hs
    refine ⟨s, hs, ?_, h2, by rw [ho]; rfl, by rw [ho]; rfl, ?_, by rw [ho]; rfl⟩
    · rw [hlen, strlen_eq_length_cstring]
      exact List.length_pos.mpr (hnonempty s hs)
    · rw [hlen] at h3 h2 ⊢
      rw [strncmp_eq_zero_iff _ _ _ (le_refl _), take_strlen, take_buffered tk _ h2] at h3
      exact h3
  · rw [ho] at hkey
    exact absurd (show termkey_result.TERMKEY_RES_AGAIN = termkey_result.TERMKEY_RES_KEY
      from hkey) (by decide)

/-- C17 at work: the buffer `"\x1bOB~"` with the registry of spec 8.6; the scan returns
Down with 3 of the 4 bytes eaten. -/
theorem C17_match_is_sound_witness :
    getkey true methods_model (tk_of (cursor_registry sample_consts) [27, 79, 66, 126])
        sample_key 0
      = matched methods_model (tk_of (cursor_registry sample_consts) [27, 79, 66, 126])
          { seq := [27, 79, 66], seqlen := 3,
            key := { type := termkey_type.TERMKEY_TYPE_KEYSYM, sym := 8,
                     modifier_mask := 0, modifier_set := 0 } } 3 :=
  (C17_match_is_sound true methods_model
    (tk_of (cursor_registry sample_consts) [27, 79, 66, 126]) sample_key 0
    (matched methods_model (tk_of (cursor_registry sample_consts) [27, 79, 66, 126])
      { seq := [27, 79, 66], seqlen := 3,
        key := { type := termkey_type.TERMKEY_TYPE_KEYSYM, sym := 8,
                 modifier_mask := 0, modifier_set := 0 } } 3)
    (by unfold registry_ok; decide) (by decide) (by decide) (by decide) (by decide)).1

/-! ## C18 -/

/-- C18: `force` only resolves ambiguity.  On a non-empty buffer, if `getkey` with
`force` off returns `TERMKEY_RES_KEY` from entry `i` (the loop passes the entries before
`i` and returns on entry `i`), then with `force` on it passes the same entries and
returns the same outcome on the same entry: the key of entry `i` with its `seqlen`
eaten.  And if with `force` on the loop runs to its end, so that `getkey` falls through
to `getkey_simple`, then with `force` off `getkey` falls through as well or returns
`TERMKEY_RES_AGAIN`. -/
theorem C18_force_only_resolves_ambiguity (char_signed : Bool) (M : Methods)
    (tk : termkey_t) (key : termkey_key) (force : Int) (hforce : force ≠ 0)
    (hne : tk.buffcount ≠ 0) :
    (∀ (i : Nat) (s : ti_keyinfo) (o : Outcome),
      (registry tk.driver_info)[i]? = some s →
      getkey_loop char_signed M tk key 0 (CHARAT tk 0) ((registry tk.driver_info).take i)
        = none →
      getkey_loop char_signed M tk key 0 (CHARAT tk 0) [s] = some o →
      o.result = termkey_result.TERMKEY_RES_KEY →
      getkey char_signed M tk key 0 = o ∧
      getkey_loop char_signed M tk key force (CHARAT tk 0)
        ((registry tk.driver_info).take i) = none ∧
      getkey_loop char_signed M tk key force (CHARAT tk 0) [s] = some o ∧
      getkey char_signed M tk key force = o ∧
      o = matched M tk s s.seqlen) ∧
    (getkey_loop char_signed M tk key force (CHARAT tk 0) (registry tk.driver_info) = none →
      getkey char_signed M tk key force = no_match M tk key ∧
      (getkey char_signed M tk key 0 = no_match M tk key ∨
        getkey char_signed M tk key 0 = need_more_input tk key)) := by
  constructor
  · intro i s o hi hpre hs hkey
    have hsplit : registry tk.driver_info
        = (registry tk.driver_info).take i ++ s :: (registry tk.driver_info).drop (i + 1) := by
      obtain ⟨hlt, hget⟩ := List.getElem?_eq_some.mp hi
      rw [← hget, ← List.drop_eq_getElem_cons hlt, List.take_append_drop]
    obtain ⟨hsf, ho⟩ := getkey_loop_single_forced char_signed M tk key force _ s o hs hkey
    have hpref := getkey_loop_none_forced char_signed M tk key force _ _ hpre
    have hwhole : ∀ f : Int,
        getkey_loop char_signed M tk key f (CHARAT tk 0)
          ((registry tk.driver_info).take i) = none →
        getkey_loop char_signed M tk key f (CHARAT tk 0) [s] = some o →
        getkey char_signed M tk key f = o := by
      intro f h1 h2
      apply getkey_of_loop_some char_signed M tk key f o hne
      rw [hsplit, getkey_loop_append char_signed M tk key f _ _ _ h1]
      exact getkey_loop_cons_of_single char_signed M tk key f _ s _ o h2
    exact ⟨hwhole 0 hpre hs, hpref, hsf, hwhole force hpref hsf, ho⟩
  · intro hnone
    refine ⟨getkey_of_loop_none char_signed M tk key force hne hnone, ?_⟩
    rcases getkey_loop_unforced char_signed M tk key force _ hforce _ hnone with h | h
    · exact Or.inl (getkey_of_loop_none char_signed M tk key 0 hne h)
    · exact Or.inr (getkey_of_loop_some char_signed M tk key 0 _ hne h)

/-- C18 at work: the buffer `"\x1bOB"` with the registry of spec 8.6 is Down from entry 1
with `force` off, so it is Down from entry 1 with `force` on. -/
theorem C18_force_only_resolves_ambiguity_witness :
    getkey true methods_model (tk_of (cursor_registry sample_consts) [27, 79, 66])
        sample_key 1
      = matched methods_model (tk_of (cursor_registry sample_consts) [27, 79, 66])
          { seq := [27, 79, 66], seqlen := 3,
            key := { type := termkey_type.TERMKEY_TYPE_KEYSYM, sym := 8,
                     modifier_mask := 0, modifier_set := 0 } } 3 :=
  ((C18_force_only_resolves_ambiguity true methods_model
      (tk_of (cursor_registry sample_consts) [27, 79, 66]) sample_key 1
      (by decide) (by decide)).1 1
    { seq := [27, 79, 66], seqlen := 3,
      key := { type := termkey_type.TERMKEY_TYPE_KEYSYM, sym := 8,
               modifier_mask := 0, modifier_set := 0 } }
    (matched methods_model (tk_of (cursor_registry sample_consts) [27, 79, 66])
      { seq := [27, 79, 66], seqlen := 3,
        key := { type := termkey_type.TERMKEY_TYPE_KEYSYM, sym := 8,
                 modifier_mask := 0, modifier_set := 0 } } 3)
    (by decide) (by decide) (by decide) (by decide)).2.2.2.1

/-! ## C19 -/

/-- C19, as stated, fails: `getkey` also returns `TERMKEY_RES_AGAIN` when it falls
through to `getkey_simple` and `getkey_simple` returns it, and then `getkey_simple` has
been called.  With the registry of spec 8.6, the one buffered byte 0xc3 and a
`getkey_simple` that asks for more input, no entry matches, and `getkey` returns
`TERMKEY_RES_AGAIN` after one call of `getkey_simple`. -/
theorem C19_counterexample :
    (getkey true methods_again (tk_of (cursor_registry sample_consts) [195])
        sample_key 0).result = termkey_result.TERMKEY_RES_AGAIN ∧
    (getkey true methods_again (tk_of (cursor_registry sample_consts) [195])
        sample_key 0).calls = [Call.getkey_simple] ∧
    (getkey true methods_again (tk_of (cursor_registry sample_consts) [195])
        sample_key 0).calls ≠ [] := by
  refine ⟨by decide, by decide, by decide⟩

/-- C19, amended: when the registry scan of `getkey` returns `TERMKEY_RES_AGAIN` (the
partial-match branch of the loop, taken only with `force` off), nothing is consumed and
nothing is reported: `eat_bytes` and `getkey_simple` are not called, `*tk` (the buffer
start and count with it) is unchanged, and the caller's key structure is left exactly
as it was passed in. -/
theorem C19_scan_again_touches_nothing (char_signed : Bool) (M : Methods)
    (tk : termkey_t) (key : termkey_key) (force : Int) (o : Outcome)
    (hne : tk.buffcount ≠ 0)
    (hloop : getkey_loop char_signed M tk key force (CHARAT tk 0)
      (registry tk.driver_info) = some o)
    (hres : o.result = termkey_result.TERMKEY_RES_AGAIN) :
    getkey char_signed M tk key force = o ∧
    o.calls = [] ∧ o.tk = tk ∧ o.tk.buffstart = tk.buffstart ∧
    o.tk.buffcount = tk.buffcount ∧ o.key = key ∧ force = 0 := by
  refine ⟨getkey_of_loop_some char_signed M tk key force o hne hloop, ?_⟩
  rcases getkey_loop_some char_signed M tk key force _ o _ hloop with
    ⟨s, _, ho, _, _⟩ | ⟨ho, hf⟩
  · rw [ho] at hres
    exact absurd (show termkey_result.TERMKEY_RES_KEY = termkey_result.TERMKEY_RES_AGAIN
      from hres) (by decide)
  · rw [ho]
    exact ⟨rfl, rfl, rfl, rfl, rfl, hf⟩

/-- C19, amended, at work: the buffer `"\x1bO"` with the registry of spec 8.6 and `force`
off. -/
theorem C19_scan_again_touches_nothing_witness :
    getkey true methods_model (tk_of (cursor_registry sample_consts) [27, 79]) sample_key 0
      = need_more_input (tk_of (cursor_registry sample_consts) [27, 79]) sample_key :=
  (C19_scan_again_touches_nothing true methods_model
    (tk_of (cursor_registry sample_consts) [27, 79]) sample_key 0
    (need_more_input (tk_of (cursor_registry sample_consts) [27, 79]) sample_key)
    (by decide) (by decide) (by decide)).1

/-! ## C20 -/

/-- C20: with an empty buffer (`buffcount` 0) `getkey` returns `TERMKEY_RES_EOF` when
the stream is closed and `TERMKEY_RES_NONE` otherwise, for every registry and both
values of `force`; it calls neither `eat_bytes` nor `getkey_simple` and leaves `*tk` and
the key structure as they were; and the outcome is the same whatever the buffer holds,
whatever the registry holds and whatever the collaborators are. -/
theorem C20_empty_buffer (char_signed : Bool) (M : Methods) (tk : termkey_t)
    (key : termkey_key) (force : Int) (h0 : tk.buffcount = 0) :
    getkey char_signed M tk key force
      = { result := if tk.is_closed then termkey_result.TERMKEY_RES_EOF
                    else termkey_result.TERMKEY_RES_NONE
          tk := tk, key := key, calls := [] } ∧
    (tk.is_closed = true →
      (getkey char_signed M tk key force).result = termkey_result.TERMKEY_RES_EOF) ∧
    (tk.is_closed = false →
      (getkey char_signed M tk key force).result = termkey_result.TERMKEY_RES_NONE) ∧
    (∀ (M1 : Methods) (buffer1 : List Nat) (buffstart1 : Nat) (ti1 : termkey_ti)
        (force1 : Int),
      (getkey char_signed M1
          { tk with buffer := buffer1, buffstart := buffstart1, driver_info := ti1 }
          key force1).result = (getkey char_signed M tk key force).result ∧
      (getkey char_signed M1
          { tk with buffer := buffer1, buffstart := buffstart1, driver_info := ti1 }
          key force1).key = key ∧
      (getkey char_signed M1
          { tk with buffer := buffer1, buffstart := buffstart1, driver_info := ti1 }
          key force1).calls = []) := by
  have hmain : ∀ (M1 : Methods) (tk1 : termkey_t) (f : Int), tk1.buffcount = 0 →
      getkey char_signed M1 tk1 key f
        = { result := if tk1.is_closed then termkey_result.TERMKEY_RES_EOF
                      else termkey_result.TERMKEY_RES_NONE
            tk := tk1, key := key, calls := [] } := by
    intro M1 tk1 f h
    rw [getkey, if_pos h]
  refine ⟨hmain M tk force h0, fun hc => ?_, fun hc => ?_, fun M1 b1 s1 ti1 f1 => ?_⟩
  · rw [hmain M tk force h0, hc]; rfl
  · rw [hmain M tk force h0, hc]; rfl
  · rw [hmain M1 { tk with buffer := b1, buffstart := s1, driver_info := ti1 } f1 h0,
      hmain M tk force h0]
    exact ⟨rfl, rfl, rfl⟩

/-- C20 at work: a closed stream with nothing buffered gives `TERMKEY_RES_EOF`. -/
theorem C20_empty_buffer_witness :
    getkey true methods_model
        { buffer := [27, 79], buffstart := 2, buffcount := 0, is_closed := true,
          driver_info := cursor_registry sample_consts } sample_key 0
      = { result := termkey_result.TERMKEY_RES_EOF
          tk := { buffer := [27, 79], buffstart := 2, buffcount := 0, is_closed := true,
                  driver_info := cursor_registry sample_consts }
          key := sample_key, calls := [] } :=
  (C20_empty_buffer true methods_model
    { buffer := [27, 79], buffstart := 2, buffcount := 0, is_closed := true,
      driver_info := cursor_registry sample_consts } sample_key 0 rfl).1

/-! ## C1 -/

/-- Where plain `char` is unsigned, or the first byte of the sequence is below 0x80, the
first-byte test of the source is equality of bytes. -/
theorem first_byte_eq_iff (char_signed : Bool) (s : ti_keyinfo) (B : List Nat)
    (h7 : char_signed = false ∨ s.seq.headD 0 < 128) :
    first_byte_eq char_signed s B ↔ s.seq.headD 0 = B.headD 0 := by
  unfold first_byte_eq
  rw [char_value_of_seven_bit char_signed _ h7]
  exact Int.ofNat_inj

/-- The reference scan of spec 4.4 with the first-byte test read as equality of bytes
describes `getkey` where plain `char` is unsigned, and where every registered sequence
starts with a byte below 0x80. -/
theorem getkey_reference_scan_bytes (char_signed : Bool) (M : Methods) (tk : termkey_t)
    (key : termkey_key) (force : Int) (hreg : registry_ok tk.driver_info)
    (hbuf : buffer_ok tk) (hne : tk.buffcount ≠ 0)
    (h7 : char_signed = false ∨ ∀ e ∈ registry tk.driver_info, e.seq.headD 0 < 128) :
    (∀ (i : Nat) (s : ti_keyinfo), (registry tk.driver_info)[i]? = some s →
      (∀ e ∈ (registry tk.driver_info).take i,
        ¬ byte_full_match e (buffered tk) ∧ ¬ byte_partial_match force e (buffered tk)) →
      (byte_full_match s (buffered tk) →
        getkey char_signed M tk key force = matched M tk s (strlen s.seq)) ∧
      (byte_partial_match force s (buffered tk) →
        getkey char_signed M tk key force = need_more_input tk key)) ∧
    ((∀ e ∈ registry tk.driver_info,
        ¬ byte_full_match e (buffered tk) ∧ ¬ byte_partial_match force e (buffered tk)) →
      getkey char_signed M tk key force = no_match M tk key) := by
  have h7e : ∀ e ∈ registry tk.driver_info, char_signed = false ∨ e.seq.headD 0 < 128 := by
    intro e he
    rcases h7 with h | h
    · exact Or.inl h
    · exact Or.inr (h e he)
  have hfull : ∀ e ∈ registry tk.driver_info,
      (full_match char_signed e (buffered tk) ↔ byte_full_match e (buffered tk)) := by
    intro e he
    unfold full_match byte_full_match
    rw [first_byte_eq_iff char_signed e _ (h7e e he)]
  have hpart : ∀ e ∈ registry tk.driver_info,
      (partial_match char_signed force e (buffered tk)
        ↔ byte_partial_match force e (buffered tk)) := by
    intro e he
    unfold partial_match byte_partial_match
    rw [first_byte_eq_iff char_signed e _ (h7e e he)]
  obtain ⟨h1, h2⟩ := getkey_scan_first_match char_signed M tk key force hreg hbuf hne
  refine ⟨fun i s hi hpre => ?_, fun hno => ?_⟩
  · have hs := List.getElem?_mem hi
    have hpre' : ∀ e ∈ (registry tk.driver_info).take i,
        ¬ full_match char_signed e (buffered tk) ∧
        ¬ partial_match char_signed force e (buffered tk) := by
      intro e he
      have hmem := List.mem_of_mem_take he
      rw [hfull e hmem, hpart e hmem]
      exact hpre e he
    obtain ⟨ha, hb⟩ := h1 i s hi hpre'
    exact ⟨fun hf => ha ((hfull s hs).mpr hf), fun hp => hb ((hpart s hs).mpr hp)⟩
  · apply h2
    intro e he
    rw [hfull e he, hpart e he]
    exact hno e he

/-- The reference scan at work where plain `char` is unsigned: the buffer `"\x9bB"` with
the registry `"\x9bA"`, `"\x9bB"` is Down with 2 bytes eaten. -/
theorem getkey_reference_scan_bytes_example :
    getkey false methods_model (tk_of (csi8_cursor_registry sample_consts) [155, 66])
        sample_key 0
      = matched methods_model (tk_of (csi8_cursor_registry sample_consts) [155, 66])
          { seq := [155, 66], seqlen := 2,
            key := { type := termkey_type.TERMKEY_TYPE_KEYSYM, sym := 8,
                     modifier_mask := 0, modifier_set := 0 } } 2 :=
  ((getkey_reference_scan_bytes false methods_model
      (tk_of (csi8_cursor_registry sample_consts) [155, 66]) sample_key 0
      (by unfold registry_ok; decide) (by unfold buffer_ok; decide) (by decide)
      (Or.inl rfl)).1 1
    { seq := [155, 66], seqlen := 2,
      key := { type := termkey_type.TERMKEY_TYPE_KEYSYM, sym := 8,
               modifier_mask := 0, modifier_set := 0 } }
    (by decide) (by decide)).1 (by decide)

/-- C1 fails where plain `char` is signed.  The registry holds `"\x9bA"` (Up) and
`"\x9bB"` (Down) and the buffer holds the two bytes `"\x9bB"`.  For the reference scan
of spec 4.4 entry 0 is no match and entry 1 is the least index that matches, a full
match: its first byte equals the first buffered byte and its sequence equals the
buffer.  The claim has `getkey` return `TERMKEY_RES_KEY` with Down and 2 bytes eaten;
`getkey` reads `s->seq[0]` as the `char` -101, compares it with `b0` = 155, skips both
entries and returns what `getkey_simple` does.  Where plain `char` is unsigned the same
input gives Down with 2 bytes eaten. -/
theorem C1_reference_scan_signed_char (M : Methods) (key : termkey_key) (force : Int) :
    (registry (csi8_cursor_registry sample_consts)).map ti_keyinfo.seq
      = [[155, 65], [155, 66]] ∧
    buffered (tk_of (csi8_cursor_registry sample_consts) [155, 66]) = [155, 66] ∧
    (registry (csi8_cursor_registry sample_consts))[1]?
      = some { seq := [155, 66], seqlen := 2,
               key := { type := termkey_type.TERMKEY_TYPE_KEYSYM, sym := 8,
                        modifier_mask := 0, modifier_set := 0 } } ∧
    (∀ e ∈ (registry (csi8_cursor_registry sample_consts)).take 1,
      ¬ byte_full_match e [155, 66] ∧ ¬ byte_partial_match force e [155, 66]) ∧
    byte_full_match
      { seq := [155, 66], seqlen := 2,
        key := { type := termkey_type.TERMKEY_TYPE_KEYSYM, sym := 8,
                 modifier_mask := 0, modifier_set := 0 } } [155, 66] ∧
    getkey true M (tk_of (csi8_cursor_registry sample_consts) [155, 66]) key force
      = no_match M (tk_of (csi8_cursor_registry sample_consts) [155, 66]) key ∧
    getkey true M (tk_of (csi8_cursor_registry sample_consts) [155, 66]) key force
      ≠ matched M (tk_of (csi8_cursor_registry sample_consts) [155, 66])
          { seq := [155, 66], seqlen := 2,
            key := { type := termkey_type.TERMKEY_TYPE_KEYSYM, sym := 8,
                     modifier_mask := 0, modifier_set := 0 } } 2 ∧
    getkey false M (tk_of (csi8_cursor_registry sample_consts) [155, 66]) key force
      = matched M (tk_of (csi8_cursor_registry sample_consts) [155, 66])
          { seq := [155, 66], seqlen := 2,
            key := { type := termkey_type.TERMKEY_TYPE_KEYSYM, sym := 8,
                     modifier_mask := 0, modifier_set := 0 } } 2 := by
  refine ⟨by decide, by decide, by decide, ?_, by decide, rfl, ?_, rfl⟩
  · intro e he
    have hl : (registry (csi8_cursor_registry sample_consts)).take 1
        = [⟨[155, 65], 2, ⟨termkey_type.TERMKEY_TYPE_KEYSYM, 7, 0, 0⟩⟩] := by decide
    rw [hl] at he
    rw [List.mem_singleton.mp he]
    exact ⟨by decide, fun h => absurd h.2.1 (by decide)⟩
  · intro h
    have hc : [Call.getkey_simple] = [Call.eat_bytes 2] := congrArg Outcome.calls h
    exact absurd hc (by decide)

end TermkeyTi
